import Mathlib

/-!
Verification of the core analyzers of the tpo_monitor trading system.

The development shallowly embeds the four core components
(TPOAnalyzer, VWAPCalculator, OrderFlowAnalyzer, SignalEngine) in Lean:
Python floats are modelled as rationals, dicts as association lists in
insertion order, deques with a maximum length as lists truncated from the
front, and Python division by zero as an Option result where a claim is
about totality.
-/

/-! ## TPO analyzer (tpo_analyzer.py)

The price/volume distribution `price_volume_map` is a Python dict from
rounded price to accumulated volume.  We model it as an association list
`List (ℚ × ℚ)` in dict insertion order (Python dicts iterate in insertion
order and hold pairwise-distinct keys). -/

/-- Volume stored for price `p` in the distribution; a `defaultdict(float)`
returns `0.0` for an absent key. -/
def lookupVol : List (ℚ × ℚ) → ℚ → ℚ
  | [], _ => 0
  | e :: m, p => if e.1 = p then e.2 else lookupVol m p

/-- Model of Python `list.index` on the sorted price list: index of the
first occurrence of `p` (the price list always contains the POC when this
is called, so the absent case never arises). -/
def price_index (p : ℚ) : List ℚ → ℕ
  | [] => 0
  | q :: l => if q = p then 0 else price_index p l + 1

/-- Model of Python `max(items, key=lambda x: x[1])` on a nonempty list
`e :: es`: the builtin keeps the first item whose key is maximal, replacing
the running best only on a strictly greater key. -/
def pyMaxBySnd (e : ℚ × ℚ) (es : List (ℚ × ℚ)) : ℚ × ℚ :=
  es.foldl (fun best x => if best.2 < x.2 then x else best) e

/-- State of the value-area expansion loop of `_calculate_profile`:
`value_area_volume`, `upper_index`, `lower_index`. -/
structure VAState where
  vav : ℚ
  ui : ℕ
  li : ℕ
deriving Repr, DecidableEq

/-- Volume above the current upper boundary (`volume_above` in the loop
body): `self.price_volume_map[prices[upper_index + 1]]` when the index
exists, else the initial `0`. -/
def vol_above (vols : List ℚ) (ui : ℕ) : ℚ :=
  if ui + 1 < vols.length then vols.getD (ui + 1) 0 else 0

/-- Volume below the current lower boundary (`volume_below` in the loop
body): `self.price_volume_map[prices[lower_index - 1]]` when
`lower_index - 1 >= 0`, else the initial `0`. -/
def vol_below (vols : List ℚ) (li : ℕ) : ℚ :=
  if 1 ≤ li then vols.getD (li - 1) 0 else 0

/-- Expansion loop of `_calculate_profile` (lines 200-221 of
tpo_analyzer.py).  Each iteration reads the candidate volume above and below
the current value-area boundary, expands toward the larger side (ties and
the exhausted-lower case go up, matching `volume_above >= volume_below`),
and stops once the accumulated volume reaches the target or neither side can
expand.  The loop is written with explicit fuel; every iteration moves a
boundary outward by one index, so `vols.length` fuel always suffices, which
is what `calculate_profile` passes. -/
def expand_va (vols : List ℚ) (target : ℚ) : ℕ → VAState → VAState
  | 0, s => s
  | fuel + 1, s =>
    if s.vav < target then
      if vol_below vols s.li ≤ vol_above vols s.ui ∧ s.ui + 1 < vols.length then
        expand_va vols target fuel ⟨s.vav + vol_above vols s.ui, s.ui + 1, s.li⟩
      else if 1 ≤ s.li then
        expand_va vols target fuel ⟨s.vav + vol_below vols s.li, s.ui, s.li - 1⟩
      else s
    else s

/-- TPOProfile fields computed by `_calculate_profile` (the session
timestamps, letters and the raw level map play no part in the claims). -/
structure TPOProfileR where
  poc : ℚ
  vah : ℚ
  val : ℚ
  total_volume : ℚ
  value_area_volume : ℚ
deriving Repr, DecidableEq

/-- Model of `TPOAnalyzer._calculate_profile`: early return on an empty
distribution; POC is Python `max` over the insertion-ordered dict items by
volume; the target volume is `value_area_percent` percent of the total; the
value area is grown by `expand_va` starting from the POC index inside the
ascending price list (`sorted(self.price_volume_map.keys())`); VAH/VAL are
the final boundary prices. -/
def calculate_profile : List (ℚ × ℚ) → ℚ → Option TPOProfileR
  | [], _ => none
  | e :: es, value_area_percent =>
    let poc_price := (pyMaxBySnd e es).1
    let poc_volume := lookupVol (e :: es) poc_price
    let total_volume := ((e :: es).map Prod.snd).sum
    let target_volume := total_volume * (value_area_percent / 100)
    let prices := List.insertionSort (· ≤ ·) ((e :: es).map Prod.fst)
    let poc_index := price_index poc_price prices
    let vols := prices.map (lookupVol (e :: es))
    let fin := expand_va vols target_volume prices.length ⟨poc_volume, poc_index, poc_index⟩
    some { poc := poc_price
           vah := prices.getD fin.ui 0
           val := prices.getD fin.li 0
           total_volume := total_volume
           value_area_volume := fin.vav }

/-! ### Lemmas about the expansion loop -/

lemma expand_va_bounds (vols : List ℚ) (target : ℚ) :
    ∀ fuel s, s.ui < vols.length →
      (expand_va vols target fuel s).ui < vols.length ∧
      s.ui ≤ (expand_va vols target fuel s).ui ∧
      (expand_va vols target fuel s).li ≤ s.li := by
  intro fuel
  induction fuel with
  | zero => intro s hs; exact ⟨hs, le_refl _, le_refl _⟩
  | succ n ih =>
    intro s hs
    rw [expand_va]
    split
    · split
      · rename_i hc
        have h := ih ⟨s.vav + vol_above vols s.ui, s.ui + 1, s.li⟩ hc.2
        dsimp only at h
        exact ⟨h.1, by omega, h.2.2⟩
      · split
        · rename_i hc hli
          have h := ih ⟨s.vav + vol_below vols s.li, s.ui, s.li - 1⟩ hs
          dsimp only at h
          exact ⟨h.1, h.2.1, by omega⟩
        · exact ⟨hs, le_refl _, le_refl _⟩
    · exact ⟨hs, le_refl _, le_refl _⟩

lemma expand_va_reaches (vols : List ℚ) (target : ℚ)
    (hnn : ∀ v ∈ vols, 0 ≤ v) :
    ∀ fuel s, s.ui < vols.length →
      (vols.length - s.ui) + s.li ≤ fuel →
      target ≤ (expand_va vols target fuel s).vav ∨
      ((expand_va vols target fuel s).li = 0 ∧
       (expand_va vols target fuel s).ui = vols.length - 1) := by
  intro fuel
  induction fuel with
  | zero => intro s hs hm; omega
  | succ n ih =>
    intro s hs hm
    rw [expand_va]
    split
    · split
      · rename_i hc
        exact ih ⟨s.vav + vol_above vols s.ui, s.ui + 1, s.li⟩ hc.2 (by dsimp only; omega)
      · split
        · rename_i hc hli
          exact ih ⟨s.vav + vol_below vols s.li, s.ui, s.li - 1⟩ hs (by dsimp only; omega)
        · rename_i hc hli
          right
          refine ⟨by omega, ?_⟩
          by_contra hne
          have hui : s.ui + 1 < vols.length := by omega
          apply hc
          refine ⟨?_, hui⟩
          have h1 : vol_below vols s.li = 0 := by
            simp [vol_below, hli]
          have h2 : vol_above vols s.ui = vols.getD (s.ui + 1) 0 := by
            simp [vol_above, hui]
          rw [h1, h2]
          have hmem : vols.getD (s.ui + 1) 0 ∈ vols := by
            rw [List.getD_eq_getElem vols 0 hui]
            exact List.getElem_mem hui
          exact hnn _ hmem
    · rename_i hge
      left; exact le_of_not_lt hge

/-! ### Lemmas about Python max (first maximum wins) -/

lemma pyMaxBySnd_le (es : List (ℚ × ℚ)) :
    ∀ e, ∀ y ∈ e :: es, y.2 ≤ (pyMaxBySnd e es).2 := by
  induction es with
  | nil =>
    intro e y hy
    rcases List.mem_singleton.mp hy with rfl
    exact le_refl _
  | cons x xs ih =>
    intro e y hy
    have hstep : pyMaxBySnd e (x :: xs) = pyMaxBySnd (if e.2 < x.2 then x else e) xs := rfl
    have hhead : (if e.2 < x.2 then x else e) ∈ (if e.2 < x.2 then x else e) :: xs :=
      List.mem_cons_self _ _
    rcases List.mem_cons.mp hy with rfl | hy2
    · calc y.2 ≤ (if y.2 < x.2 then x else y).2 := by split <;> simp_all [le_of_lt]
        _ ≤ (pyMaxBySnd (if y.2 < x.2 then x else y) xs).2 := ih _ _ hhead
    · rcases List.mem_cons.mp hy2 with rfl | hy3
      · rw [hstep]
        calc y.2 ≤ (if e.2 < y.2 then y else e).2 := by
              split
              · exact le_refl _
              · exact le_of_not_lt (by assumption)
          _ ≤ (pyMaxBySnd (if e.2 < y.2 then y else e) xs).2 := ih _ _ hhead
      · rw [hstep]
        exact ih _ y (List.mem_cons_of_mem _ hy3)

lemma pyMaxBySnd_decomp (es : List (ℚ × ℚ)) :
    ∀ e, ∃ l₁ l₂, e :: es = l₁ ++ (pyMaxBySnd e es) :: l₂ ∧
      (∀ y ∈ l₁, y.2 < (pyMaxBySnd e es).2) ∧
      (∀ y ∈ l₂, y.2 ≤ (pyMaxBySnd e es).2) := by
  induction es with
  | nil =>
    intro e
    exact ⟨[], [], rfl, by simp, by simp⟩
  | cons x xs ih =>
    intro e
    have hstep : pyMaxBySnd e (x :: xs) = pyMaxBySnd (if e.2 < x.2 then x else e) xs := rfl
    by_cases hx : e.2 < x.2
    · -- the running best becomes x
      have hstep2 : pyMaxBySnd e (x :: xs) = pyMaxBySnd x xs := by
        rw [hstep, if_pos hx]
      obtain ⟨l₁, l₂, hdec, hlt, hle⟩ := ih x
      refine ⟨e :: l₁, l₂, ?_, ?_, ?_⟩
      · rw [hstep2, List.cons_append, ← hdec]
      · intro y hy
        rw [hstep2]
        rcases List.mem_cons.mp hy with rfl | hy2
        · have hxle : x.2 ≤ (pyMaxBySnd x xs).2 :=
            pyMaxBySnd_le xs x x (List.mem_cons_self _ _)
          exact lt_of_lt_of_le hx hxle
        · rw [← hstep2, hstep2]
          exact hlt y hy2
      · intro y hy; rw [hstep2]; exact hle y hy
    · -- the running best stays e
      have hstep2 : pyMaxBySnd e (x :: xs) = pyMaxBySnd e xs := by
        rw [hstep, if_neg hx]
      obtain ⟨l₁, l₂, hdec, hlt, hle⟩ := ih e
      cases l₁ with
      | nil =>
        -- the maximum of e :: xs is e itself
        have he : pyMaxBySnd e xs = e := by
          have := hdec; simp at this; exact this.1.symm
        have hxs : xs = l₂ := by
          have := hdec; simp at this; exact this.2
        refine ⟨[], x :: xs, ?_, by simp, ?_⟩
        · rw [hstep2, he]; rfl
        · intro y hy
          rw [hstep2, he]
          rcases List.mem_cons.mp hy with rfl | hy2
          · exact le_of_not_lt hx
          · rw [hxs] at hy2
            have := hle y hy2; rw [he] at this; exact this
      | cons a l₁t =>
        have ha : a = e := by
          have := hdec; simp at this; exact this.1.symm
        have htail : xs = l₁t ++ pyMaxBySnd e xs :: l₂ := by
          have := hdec
          rw [List.cons_append] at this
          exact (List.cons.injEq _ _ _ _).mp this |>.2
        refine ⟨e :: x :: l₁t, l₂, ?_, ?_, ?_⟩
        · rw [hstep2]
          simp only [List.cons_append]
          rw [← htail]
        · intro y hy
          rw [hstep2]
          have helt : e.2 < (pyMaxBySnd e xs).2 := by
            have := hlt a (List.mem_cons_self _ _)
            rw [ha] at this; exact this
          rcases List.mem_cons.mp hy with rfl | hy2
          · exact helt
          · rcases List.mem_cons.mp hy2 with rfl | hy3
            · exact lt_of_le_of_lt (le_of_not_lt hx) helt
            · exact hlt y (List.mem_cons_of_mem _ hy3)
        · intro y hy; rw [hstep2]; exact hle y hy

lemma pyMaxBySnd_mem (e : ℚ × ℚ) (es : List (ℚ × ℚ)) :
    pyMaxBySnd e es ∈ e :: es := by
  obtain ⟨l₁, l₂, hdec, _, _⟩ := pyMaxBySnd_decomp es e
  rw [hdec]
  exact List.mem_append_right _ (List.mem_cons_self _ _)

/-! ### Helper lemmas on sorted lists and lookups -/

lemma sorted_getElem_le {l : List ℚ} (hs : List.Sorted (· ≤ ·) l) {i j : ℕ}
    (hi : i < l.length) (hj : j < l.length) (hij : i ≤ j) : l[i] ≤ l[j] := by
  rcases lt_or_eq_of_le hij with hlt | rfl
  · exact List.pairwise_iff_getElem.mp hs i j hi hj hlt
  · exact le_refl _

lemma lookupVol_nonneg : ∀ (m : List (ℚ × ℚ)), (∀ x ∈ m, 0 ≤ x.2) →
    ∀ p, 0 ≤ lookupVol m p := by
  intro m
  induction m with
  | nil => intro _ p; exact le_refl _
  | cons e t ih =>
    intro h p
    rw [lookupVol]
    split
    · exact h e (List.mem_cons_self _ _)
    · exact ih (fun x hx => h x (List.mem_cons_of_mem _ hx)) p

lemma lookupVol_append_of_ne (p v : ℚ) (l₂ : List (ℚ × ℚ)) :
    ∀ l₁ : List (ℚ × ℚ), (∀ y ∈ l₁, y.1 ≠ p) →
      lookupVol (l₁ ++ (p, v) :: l₂) p = v := by
  intro l₁
  induction l₁ with
  | nil => intro _; simp [lookupVol]
  | cons a t ih =>
    intro h
    rw [List.cons_append, lookupVol]
    rw [if_neg (h a (List.mem_cons_self _ _))]
    exact ih (fun y hy => h y (List.mem_cons_of_mem _ hy))

lemma price_index_spec {p : ℚ} : ∀ {l : List ℚ}, p ∈ l →
    price_index p l < l.length ∧ l.getD (price_index p l) 0 = p := by
  intro l
  induction l with
  | nil => intro h; simp at h
  | cons q t ih =>
    intro h
    by_cases hq : q = p
    · subst hq; simp [price_index]
    · have hp : p ∈ t := by
        rcases List.mem_cons.mp h with rfl | ht
        · exact absurd rfl hq
        · exact ht
      have := ih hp
      rw [price_index, if_neg hq]
      exact ⟨by simpa using this.1, by simpa using this.2⟩

/-- C9: every TPOProfile produced by `_calculate_profile` satisfies
VAL ≤ POC ≤ VAH: the expansion loop only moves `upper_index` up and
`lower_index` down from the POC index inside the ascending price list. -/
theorem tpo_profile_val_le_poc_le_vah (m : List (ℚ × ℚ)) (pct : ℚ)
    (prof : TPOProfileR) (hcalc : calculate_profile m pct = some prof) :
    prof.val ≤ prof.poc ∧ prof.poc ≤ prof.vah := by
  cases m with
  | nil => simp [calculate_profile] at hcalc
  | cons e es =>
    rw [calculate_profile] at hcalc
    have hprof := (Option.some.inj hcalc).symm
    subst hprof
    dsimp only
    set poc := (pyMaxBySnd e es).1 with hpocdef
    set prices := List.insertionSort (· ≤ ·) ((e :: es).map Prod.fst) with hpricesdef
    set vols := prices.map (lookupVol (e :: es)) with hvolsdef
    set target := ((e :: es).map Prod.snd).sum * (pct / 100) with htargetdef
    set pi := price_index poc prices with hpidef
    have hperm : prices.Perm ((e :: es).map Prod.fst) :=
      List.perm_insertionSort _ _
    have hsorted : List.Sorted (· ≤ ·) prices := List.sorted_insertionSort _ _
    have hpocmem : poc ∈ prices :=
      hperm.mem_iff.mpr (List.mem_map_of_mem Prod.fst (pyMaxBySnd_mem e es))
    have hpispec := price_index_spec hpocmem
    have hpilt : pi < prices.length := hpispec.1
    have hget : prices[pi] = poc := by
      rw [← List.getD_eq_getElem prices 0 hpilt]; exact hpispec.2
    have hlen : vols.length = prices.length := List.length_map _ _
    have hbounds := expand_va_bounds vols target prices.length
      ⟨lookupVol (e :: es) poc, pi, pi⟩ (by dsimp only; omega)
    set fin := expand_va vols target prices.length
      ⟨lookupVol (e :: es) poc, pi, pi⟩ with hfindef
    dsimp only at hbounds
    obtain ⟨hfu, hfu2, hfl⟩ := hbounds
    have hfult : fin.ui < prices.length := by omega
    have hfllt : fin.li < prices.length := by omega
    constructor
    · rw [List.getD_eq_getElem prices 0 hfllt, ← hget]
      exact sorted_getElem_le hsorted hfllt hpilt (by omega)
    · rw [List.getD_eq_getElem prices 0 hfult, ← hget]
      exact sorted_getElem_le hsorted hpilt hfult (by omega)

lemma calculate_profile_eval_two_level :
    calculate_profile [((10 : ℚ), (5 : ℚ)), (20, 5)] 70 =
      some ⟨10, 20, 10, 10, 10⟩ := by
  norm_num [calculate_profile, pyMaxBySnd, lookupVol, expand_va, vol_above, vol_below,
    List.insertionSort, List.orderedInsert, price_index]

/-- C9 witness: a concrete two-level distribution. -/
theorem tpo_profile_val_le_poc_le_vah_witness :
    calculate_profile [((10 : ℚ), (5 : ℚ)), (20, 5)] 70 =
      some ⟨10, 20, 10, 10, 10⟩ ∧
    (10 : ℚ) ≤ 10 ∧ (10 : ℚ) ≤ 20 := by
  have h := calculate_profile_eval_two_level
  have h2 := tpo_profile_val_le_poc_le_vah _ _ _ h
  exact ⟨h, h2.1, h2.2⟩

/-- C1: for every nonempty nonnegative distribution, the recomputed profile
either accumulates at least `value_area_percent` percent of the total
volume inside the value area, or the value area spans the whole
distribution from its lowest price (VAL) to its highest price (VAH). -/
theorem tpo_value_area_target_or_full_span (m : List (ℚ × ℚ)) (pct : ℚ)
    (prof : TPOProfileR)
    (hnn : ∀ x ∈ m, 0 ≤ x.2)
    (hcalc : calculate_profile m pct = some prof) :
    prof.total_volume * (pct / 100) ≤ prof.value_area_volume ∨
    ((prof.val ∈ m.map Prod.fst ∧ ∀ q ∈ m.map Prod.fst, prof.val ≤ q) ∧
     (prof.vah ∈ m.map Prod.fst ∧ ∀ q ∈ m.map Prod.fst, q ≤ prof.vah)) := by
  cases m with
  | nil => simp [calculate_profile] at hcalc
  | cons e es =>
    rw [calculate_profile] at hcalc
    have hprof := (Option.some.inj hcalc).symm
    subst hprof
    dsimp only
    set poc := (pyMaxBySnd e es).1 with hpocdef
    set prices := List.insertionSort (· ≤ ·) ((e :: es).map Prod.fst) with hpricesdef
    set vols := prices.map (lookupVol (e :: es)) with hvolsdef
    set target := ((e :: es).map Prod.snd).sum * (pct / 100) with htargetdef
    set pi := price_index poc prices with hpidef
    have hperm : prices.Perm ((e :: es).map Prod.fst) := List.perm_insertionSort _ _
    have hsorted : List.Sorted (· ≤ ·) prices := List.sorted_insertionSort _ _
    have hpocmem : poc ∈ prices :=
      hperm.mem_iff.mpr (List.mem_map_of_mem Prod.fst (pyMaxBySnd_mem e es))
    have hpispec := price_index_spec hpocmem
    have hpilt : pi < prices.length := hpispec.1
    have hlen : vols.length = prices.length := List.length_map _ _
    have hnnv : ∀ v ∈ vols, 0 ≤ v := by
      intro v hv
      rw [hvolsdef] at hv
      obtain ⟨q, hq, rfl⟩ := List.mem_map.mp hv
      exact lookupVol_nonneg _ hnn q
    have hreach := expand_va_reaches vols target hnnv prices.length
      ⟨lookupVol (e :: es) poc, pi, pi⟩ (by dsimp only; omega) (by dsimp only; omega)
    set fin := expand_va vols target prices.length
      ⟨lookupVol (e :: es) poc, pi, pi⟩ with hfindef
    rcases hreach with hle | ⟨hli, hui⟩
    · left; exact hle
    · right
      rw [hlen] at hui
      have hlenpos : 0 < prices.length := by omega
      constructor
      · constructor
        · rw [hli, List.getD_eq_getElem prices 0 (by omega)]
          exact hperm.mem_iff.mp (List.getElem_mem hlenpos)
        · intro q hq
          rw [hli, List.getD_eq_getElem prices 0 (by omega)]
          have hqp : q ∈ prices := hperm.mem_iff.mpr hq
          obtain ⟨j, hj, rfl⟩ := List.mem_iff_getElem.mp hqp
          exact sorted_getElem_le hsorted hlenpos hj (by omega)
      · constructor
        · rw [hui, List.getD_eq_getElem prices 0 (by omega)]
          exact hperm.mem_iff.mp (List.getElem_mem (by omega))
        · intro q hq
          rw [hui, List.getD_eq_getElem prices 0 (by omega)]
          have hqp : q ∈ prices := hperm.mem_iff.mpr hq
          obtain ⟨j, hj, rfl⟩ := List.mem_iff_getElem.mp hqp
          exact sorted_getElem_le hsorted hj (by omega) (by omega)

/-- C1 witness: the two-level distribution reaches the 70 percent target. -/
theorem tpo_value_area_target_or_full_span_witness :
    (∀ x ∈ [((10 : ℚ), (5 : ℚ)), (20, 5)], 0 ≤ x.2) ∧
    ((10 : ℚ) * (70 / 100) ≤ 10 ∨
     (((10 : ℚ) ∈ [((10 : ℚ), (5 : ℚ)), (20, 5)].map Prod.fst ∧
       ∀ q ∈ [((10 : ℚ), (5 : ℚ)), (20, 5)].map Prod.fst, (10 : ℚ) ≤ q) ∧
      ((20 : ℚ) ∈ [((10 : ℚ), (5 : ℚ)), (20, 5)].map Prod.fst ∧
       ∀ q ∈ [((10 : ℚ), (5 : ℚ)), (20, 5)].map Prod.fst, q ≤ 20))) := by
  have hnn : ∀ x ∈ [((10 : ℚ), (5 : ℚ)), (20, 5)], 0 ≤ x.2 := by
    simp only [List.forall_mem_cons, List.forall_mem_nil]
    norm_num
  have h := tpo_value_area_target_or_full_span _ 70 _ hnn calculate_profile_eval_two_level
  exact ⟨hnn, h⟩

/-- C5 counterexample: with insertion order [(20, 5), (10, 5)] the two
prices tie at the maximal volume 5, yet the computed POC is 20, not the
lowest tied price 10: Python max keeps the first item of dict iteration
order, which is insertion order, not ascending price order. -/
theorem tpo_poc_tie_counterexample :
    (calculate_profile [((20 : ℚ), (5 : ℚ)), (10, 5)] 70).map TPOProfileR.poc =
      some 20 ∧
    ((10 : ℚ), (5 : ℚ)) ∈ [((20 : ℚ), (5 : ℚ)), (10, 5)] ∧
    (∀ x ∈ [((20 : ℚ), (5 : ℚ)), (10, 5)], x.2 ≤ 5) ∧
    ¬ ((20 : ℚ) ≤ 10) := by
  refine ⟨?_, ?_, ?_, by norm_num⟩
  · norm_num [calculate_profile, pyMaxBySnd, lookupVol, expand_va, vol_above, vol_below,
      List.insertionSort, List.orderedInsert, price_index]
  · simp
  · simp only [List.forall_mem_cons, List.forall_mem_nil]
    norm_num

/-- C5 amended: the recomputation selects as POC the first price in the
map's insertion (iteration) order among those with maximal volume; in
particular, when the insertion order is ascending in price, the POC is the
lowest tied price: it attains the maximal volume and is below or equal to
every price whose volume also attains it. -/
theorem tpo_poc_first_insertion_max (m : List (ℚ × ℚ)) (pct : ℚ)
    (prof : TPOProfileR)
    (hsorted : List.Sorted (· < ·) (m.map Prod.fst))
    (hcalc : calculate_profile m pct = some prof) :
    (∀ x ∈ m, x.2 ≤ lookupVol m prof.poc) ∧
    (∀ x ∈ m, lookupVol m prof.poc ≤ x.2 → prof.poc ≤ x.1) := by
  cases m with
  | nil => simp [calculate_profile] at hcalc
  | cons e es =>
    rw [calculate_profile] at hcalc
    have hprof := (Option.some.inj hcalc).symm
    subst hprof
    dsimp only
    obtain ⟨l₁, l₂, hdec, hlt, hle⟩ := pyMaxBySnd_decomp es e
    set r := pyMaxBySnd e es with hrdef
    have hkeys : (e :: es).map Prod.fst = l₁.map Prod.fst ++ r.1 :: l₂.map Prod.fst := by
      rw [hdec, List.map_append, List.map_cons]
    rw [hkeys] at hsorted
    have hpair := List.pairwise_append.mp hsorted
    have hl1lt : ∀ y ∈ l₁, y.1 < r.1 := by
      intro y hy
      exact hpair.2.2 _ (List.mem_map_of_mem Prod.fst hy) _ (List.mem_cons_self _ _)
    have hl2gt : ∀ y ∈ l₂, r.1 < y.1 := by
      intro y hy
      exact (List.pairwise_cons.mp hpair.2.1).1 _ (List.mem_map_of_mem Prod.fst hy)
    have hlook : lookupVol (e :: es) r.1 = r.2 := by
      rw [hdec]
      exact lookupVol_append_of_ne r.1 r.2 l₂ l₁ (fun y hy => ne_of_lt (hl1lt y hy))
    constructor
    · intro x hx
      rw [hlook]
      exact pyMaxBySnd_le es e x hx
    · intro x hx hxe
      rw [hlook] at hxe
      rw [hdec] at hx
      rcases List.mem_append.mp hx with h1 | h2
      · exact absurd hxe (not_le_of_lt (hlt x h1))
      · rcases List.mem_cons.mp h2 with rfl | h3
        · exact le_refl _
        · exact le_of_lt (hl2gt x h3)

/-- C5 amended witness: ascending insertion order selects the lowest tied
price 10 as POC. -/
theorem tpo_poc_first_insertion_max_witness :
    List.Sorted (· < ·) ([((10 : ℚ), (5 : ℚ)), (20, 5)].map Prod.fst) ∧
    ((∀ x ∈ [((10 : ℚ), (5 : ℚ)), (20, 5)],
        x.2 ≤ lookupVol [((10 : ℚ), (5 : ℚ)), (20, 5)] (10 : ℚ)) ∧
     (∀ x ∈ [((10 : ℚ), (5 : ℚ)), (20, 5)],
        lookupVol [((10 : ℚ), (5 : ℚ)), (20, 5)] (10 : ℚ) ≤ x.2 → (10 : ℚ) ≤ x.1)) := by
  have hs : List.Sorted (· < ·) ([((10 : ℚ), (5 : ℚ)), (20, 5)].map Prod.fst) := by
    simp only [List.map_cons, List.map_nil, List.sorted_cons, List.mem_singleton,
      List.sorted_singleton, List.mem_cons, List.not_mem_nil]
    norm_num
  have h := tpo_poc_first_insertion_max _ 70 _ hs calculate_profile_eval_two_level
  exact ⟨hs, h⟩


/-! ## VWAP calculator (vwap_calculator.py)

Candles carry millisecond timestamps and OHLCV floats; both are modelled as
rationals.  `utils.get_session_start` (pure datetime bucketing of a
timestamp into its session's start) is abstracted as a function
`sess : ℚ → ℚ`; the claims only use that two candles share a session
exactly when `sess` maps their timestamps to the same value. -/

structure Candle where
  timestamp : ℚ
  opn : ℚ
  high : ℚ
  low : ℚ
  close : ℚ
  volume : ℚ
deriving Repr, DecidableEq

/-- Typical price `(high + low + close) / 3` of `VWAPCalculator.update`. -/
def typical_price (c : Candle) : ℚ := (c.high + c.low + c.close) / 3

/-- Accumulator state of VWAPCalculator: `current_session_start`,
`cumulative_pv`, `cumulative_volume`, `cumulative_pv2`.  The deque of VWAP
values for the slope and the pullback counters feed no claim and are
omitted. -/
structure VWAPState where
  current_session_start : Option ℚ
  cumulative_pv : ℚ
  cumulative_volume : ℚ
  cumulative_pv2 : ℚ
deriving Repr, DecidableEq

/-- Fresh calculator state (constructor of VWAPCalculator). -/
def initVWAPState : VWAPState := ⟨none, 0, 0, 0⟩

/-- Fields of the returned VWAPData that the claims mention. -/
structure VWAPOut where
  vwap : ℚ
  cumulative_vp : ℚ
  cumulative_volume : ℚ
deriving Repr, DecidableEq

/-- Model of `VWAPCalculator.update`: reset the accumulators when the
candle's session start differs from the current one (`_reset_session`),
accumulate Σ(price·volume), Σ(volume), Σ(price²·volume), then report
VWAP = ΣPV/ΣV with the typical price as the ΣV = 0 fallback. -/
def vwap_update (sess : ℚ → ℚ) (c : Candle) (st : VWAPState) :
    VWAPOut × VWAPState :=
  let session_start := sess c.timestamp
  let st1 := if st.current_session_start = some session_start then st
             else ⟨some session_start, 0, 0, 0⟩
  let tp := typical_price c
  let cum_pv := st1.cumulative_pv + tp * c.volume
  let cum_vol := st1.cumulative_volume + c.volume
  let cum_pv2 := st1.cumulative_pv2 + tp ^ 2 * c.volume
  let vwap := if cum_vol = 0 then tp else cum_pv / cum_vol
  (⟨vwap, cum_pv, cum_vol⟩, ⟨some session_start, cum_pv, cum_vol, cum_pv2⟩)

/-- Driver feeding a candle list through `vwap_update`, keeping the last
returned VWAPData (`none` before the first update). -/
def run_vwap (sess : ℚ → ℚ) (st : VWAPState) : List Candle → VWAPState × Option VWAPOut
  | [] => (st, none)
  | c :: cs =>
    let p := vwap_update sess c st
    let r := run_vwap sess p.2 cs
    (r.1, some (r.2.getD p.1))

/-- Session sum Σ(typical_price · volume). -/
def session_pv (cs : List Candle) : ℚ :=
  (cs.map (fun c => typical_price c * c.volume)).sum

/-- Session sum Σ(volume). -/
def session_vol (cs : List Candle) : ℚ := (cs.map (fun c => c.volume)).sum

lemma run_vwap_sums (sess : ℚ → ℚ) (s0 : ℚ) :
    ∀ (cs : List Candle) (st : VWAPState),
      st.current_session_start = some s0 →
      (∀ c ∈ cs, sess c.timestamp = s0) →
      (run_vwap sess st cs).1.cumulative_pv = st.cumulative_pv + session_pv cs ∧
      (run_vwap sess st cs).1.cumulative_volume
        = st.cumulative_volume + session_vol cs ∧
      (run_vwap sess st cs).1.current_session_start = some s0 ∧
      ∀ hne : cs ≠ [],
        (run_vwap sess st cs).2 = some
          ⟨(if st.cumulative_volume + session_vol cs = 0
              then typical_price (cs.getLast hne)
              else (st.cumulative_pv + session_pv cs)
                / (st.cumulative_volume + session_vol cs)),
           st.cumulative_pv + session_pv cs,
           st.cumulative_volume + session_vol cs⟩ := by
  intro cs
  induction cs with
  | nil =>
    intro st hst _
    refine ⟨by simp [run_vwap, session_pv], by simp [run_vwap, session_vol],
      by simpa [run_vwap] using hst, ?_⟩
    intro hne; exact absurd rfl hne
  | cons c cs ih =>
    intro st hst hsess
    have hc : sess c.timestamp = s0 := hsess c (List.mem_cons_self _ _)
    have hkeep : st.current_session_start = some (sess c.timestamp) := by
      rw [hc]; exact hst
    have hp2 : (vwap_update sess c st).2 =
        ⟨some (sess c.timestamp), st.cumulative_pv + typical_price c * c.volume,
         st.cumulative_volume + c.volume,
         st.cumulative_pv2 + (typical_price c) ^ 2 * c.volume⟩ := by
      simp [vwap_update, hkeep]
    have hses2 : (vwap_update sess c st).2.current_session_start = some s0 := by
      rw [hp2, hc]
    have ihh := ih (vwap_update sess c st).2 hses2
      (fun d hd => hsess d (List.mem_cons_of_mem _ hd))
    have hpv : session_pv (c :: cs) = typical_price c * c.volume + session_pv cs := by
      simp [session_pv]
    have hvol : session_vol (c :: cs) = c.volume + session_vol cs := by
      simp [session_vol]
    have hrun : run_vwap sess st (c :: cs) =
        ((run_vwap sess (vwap_update sess c st).2 cs).1,
         some ((run_vwap sess (vwap_update sess c st).2 cs).2.getD
           (vwap_update sess c st).1)) := rfl
    refine ⟨?_, ?_, ?_, ?_⟩
    · rw [hrun]
      dsimp only
      rw [ihh.1, hp2, hpv]
      dsimp only
      ring
    · rw [hrun]
      dsimp only
      rw [ihh.2.1, hp2, hvol]
      dsimp only
      ring
    · rw [hrun]
      dsimp only
      exact ihh.2.2.1
    · intro _
      rw [hrun]
      dsimp only
      cases cs with
      | nil =>
        have hr : run_vwap sess (vwap_update sess c st).2 [] =
            ((vwap_update sess c st).2, none) := rfl
        rw [hr]
        dsimp only [Option.getD]
        have hp1 : (vwap_update sess c st).1 =
            ⟨(if st.cumulative_volume + c.volume = 0 then typical_price c
              else (st.cumulative_pv + typical_price c * c.volume)
                / (st.cumulative_volume + c.volume)),
             st.cumulative_pv + typical_price c * c.volume,
             st.cumulative_volume + c.volume⟩ := by
          simp [vwap_update, hkeep]
        rw [hp1]
        simp [session_pv, session_vol]
      | cons d ds =>
        have hne2 : d :: ds ≠ [] := List.cons_ne_nil _ _
        rw [ihh.2.2.2 hne2]
        dsimp only [Option.getD]
        rw [hp2]
        dsimp only
        have hlast : (c :: d :: ds).getLast (List.cons_ne_nil _ _)
            = (d :: ds).getLast hne2 := List.getLast_cons hne2
        rw [hlast, hpv, hvol]
        have hassoc1 : st.cumulative_pv + typical_price c * c.volume + session_pv (d :: ds)
            = st.cumulative_pv + (typical_price c * c.volume + session_pv (d :: ds)) := by ring
        have hassoc2 : st.cumulative_volume + c.volume + session_vol (d :: ds)
            = st.cumulative_volume + (c.volume + session_vol (d :: ds)) := by ring
        rw [hassoc1, hassoc2]

/-- C2: over any nonempty candle sequence lying in one session, the last
`update` returns VWAP = Σ(typical·volume)/Σ(volume), falling back to the
last candle's typical price when ΣV = 0; and a single `update` resets the
cumulative sums to zero (before accumulating the new candle) exactly when
the candle's timestamp falls in a new session. -/
theorem vwap_session_formula_and_reset (sess : ℚ → ℚ) (s0 : ℚ)
    (cs : List Candle) (st : VWAPState) (c : Candle)
    (hne : cs ≠ [])
    (hsess : ∀ cd ∈ cs, sess cd.timestamp = s0) :
    ((run_vwap sess initVWAPState cs).2 = some
        ⟨(if session_vol cs = 0 then typical_price (cs.getLast hne)
          else session_pv cs / session_vol cs),
         session_pv cs, session_vol cs⟩) ∧
    ((vwap_update sess c st).2.cumulative_pv =
        (if st.current_session_start = some (sess c.timestamp)
          then st.cumulative_pv else 0) + typical_price c * c.volume ∧
     (vwap_update sess c st).2.cumulative_volume =
        (if st.current_session_start = some (sess c.timestamp)
          then st.cumulative_volume else 0) + c.volume ∧
     (vwap_update sess c st).2.cumulative_pv2 =
        (if st.current_session_start = some (sess c.timestamp)
          then st.cumulative_pv2 else 0) + (typical_price c) ^ 2 * c.volume ∧
     (vwap_update sess c st).2.current_session_start = some (sess c.timestamp)) := by
  constructor
  · cases cs with
    | nil => exact absurd rfl hne
    | cons c0 rest =>
      have h0 : sess c0.timestamp = s0 := hsess c0 (List.mem_cons_self _ _)
      have hreset : (initVWAPState.current_session_start
          = some (sess c0.timestamp)) = False := by
        simp [initVWAPState]
      have hp2 : (vwap_update sess c0 initVWAPState).2 =
          ⟨some (sess c0.timestamp), 0 + typical_price c0 * c0.volume,
           0 + c0.volume, 0 + (typical_price c0) ^ 2 * c0.volume⟩ := by
        simp only [vwap_update, hreset, if_false, eq_self_iff_true]
      have hses : (vwap_update sess c0 initVWAPState).2.current_session_start
          = some s0 := by rw [hp2, h0]
      have ihh := run_vwap_sums sess s0 rest (vwap_update sess c0 initVWAPState).2 hses
        (fun d hd => hsess d (List.mem_cons_of_mem _ hd))
      have hrun : run_vwap sess initVWAPState (c0 :: rest) =
          ((run_vwap sess (vwap_update sess c0 initVWAPState).2 rest).1,
           some ((run_vwap sess (vwap_update sess c0 initVWAPState).2 rest).2.getD
             (vwap_update sess c0 initVWAPState).1)) := rfl
      rw [hrun]
      dsimp only
      have hpv : session_pv (c0 :: rest) = typical_price c0 * c0.volume + session_pv rest := by
        simp [session_pv]
      have hvol : session_vol (c0 :: rest) = c0.volume + session_vol rest := by
        simp [session_vol]
      cases rest with
      | nil =>
        have hr : run_vwap sess (vwap_update sess c0 initVWAPState).2 [] =
            ((vwap_update sess c0 initVWAPState).2, none) := rfl
        rw [hr]
        dsimp only [Option.getD]
        have hp1 : (vwap_update sess c0 initVWAPState).1 =
            ⟨(if 0 + c0.volume = 0 then typical_price c0
              else (0 + typical_price c0 * c0.volume) / (0 + c0.volume)),
             0 + typical_price c0 * c0.volume, 0 + c0.volume⟩ := by
          simp only [vwap_update, hreset, if_false]
        rw [hp1]
        simp [session_pv, session_vol]
      | cons d ds =>
        have hne2 : d :: ds ≠ [] := List.cons_ne_nil _ _
        rw [ihh.2.2.2 hne2]
        dsimp only [Option.getD]
        rw [hp2]
        dsimp only
        have hlast : (c0 :: d :: ds).getLast (by exact hne) = (d :: ds).getLast hne2 :=
          List.getLast_cons hne2
        rw [hlast, hpv, hvol]
        have ha1 : 0 + typical_price c0 * c0.volume + session_pv (d :: ds)
            = typical_price c0 * c0.volume + session_pv (d :: ds) := by ring
        have ha2 : 0 + c0.volume + session_vol (d :: ds)
            = c0.volume + session_vol (d :: ds) := by ring
        rw [ha1, ha2]
  · by_cases hk : st.current_session_start = some (sess c.timestamp)
    · refine ⟨?_, ?_, ?_, ?_⟩ <;> simp [vwap_update, hk]
    · refine ⟨?_, ?_, ?_, ?_⟩ <;> simp [vwap_update, hk]

/-- C2 witness: one two-candle session with nonzero volume. -/
theorem vwap_session_formula_and_reset_witness :
    ([⟨0, 1, 3, 1, 2, 2⟩, ⟨1, 2, 4, 2, 3, 1⟩] : List Candle) ≠ [] ∧
    (∀ cd ∈ ([⟨0, 1, 3, 1, 2, 2⟩, ⟨1, 2, 4, 2, 3, 1⟩] : List Candle),
      (fun _ => (0 : ℚ)) cd.timestamp = 0) ∧
    (((run_vwap (fun _ => (0 : ℚ)) initVWAPState
        [⟨0, 1, 3, 1, 2, 2⟩, ⟨1, 2, 4, 2, 3, 1⟩]).2 = some
        ⟨(if session_vol [⟨0, 1, 3, 1, 2, 2⟩, ⟨1, 2, 4, 2, 3, 1⟩] = 0
          then typical_price (([⟨0, 1, 3, 1, 2, 2⟩, ⟨1, 2, 4, 2, 3, 1⟩] :
            List Candle).getLast (by simp))
          else session_pv [⟨0, 1, 3, 1, 2, 2⟩, ⟨1, 2, 4, 2, 3, 1⟩]
            / session_vol [⟨0, 1, 3, 1, 2, 2⟩, ⟨1, 2, 4, 2, 3, 1⟩]),
         session_pv [⟨0, 1, 3, 1, 2, 2⟩, ⟨1, 2, 4, 2, 3, 1⟩],
         session_vol [⟨0, 1, 3, 1, 2, 2⟩, ⟨1, 2, 4, 2, 3, 1⟩]⟩) ∧
     ((vwap_update (fun _ => (0 : ℚ)) ⟨0, 1, 3, 1, 2, 2⟩ initVWAPState).2.cumulative_pv =
        (if initVWAPState.current_session_start = some ((fun _ => (0 : ℚ)) (0 : ℚ))
          then initVWAPState.cumulative_pv else 0)
          + typical_price ⟨0, 1, 3, 1, 2, 2⟩ * (2 : ℚ) ∧
      (vwap_update (fun _ => (0 : ℚ)) ⟨0, 1, 3, 1, 2, 2⟩ initVWAPState).2.cumulative_volume =
        (if initVWAPState.current_session_start = some ((fun _ => (0 : ℚ)) (0 : ℚ))
          then initVWAPState.cumulative_volume else 0) + (2 : ℚ) ∧
      (vwap_update (fun _ => (0 : ℚ)) ⟨0, 1, 3, 1, 2, 2⟩ initVWAPState).2.cumulative_pv2 =
        (if initVWAPState.current_session_start = some ((fun _ => (0 : ℚ)) (0 : ℚ))
          then initVWAPState.cumulative_pv2 else 0)
          + (typical_price ⟨0, 1, 3, 1, 2, 2⟩) ^ 2 * (2 : ℚ) ∧
      (vwap_update (fun _ => (0 : ℚ)) ⟨0, 1, 3, 1, 2, 2⟩
        initVWAPState).2.current_session_start = some ((fun _ => (0 : ℚ)) (0 : ℚ)))) := by
  have hne : ([⟨0, 1, 3, 1, 2, 2⟩, ⟨1, 2, 4, 2, 3, 1⟩] : List Candle) ≠ [] := by simp
  have hs : ∀ cd ∈ ([⟨0, 1, 3, 1, 2, 2⟩, ⟨1, 2, 4, 2, 3, 1⟩] : List Candle),
      (fun _ => (0 : ℚ)) cd.timestamp = 0 := by
    intro cd _; rfl
  exact ⟨hne, hs, vwap_session_formula_and_reset (fun _ => (0 : ℚ)) 0 _ initVWAPState
    ⟨0, 1, 3, 1, 2, 2⟩ hne hs⟩

/-! ## Order flow analyzer (orderflow_analyzer.py)

State of OrderFlowAnalyzer.  Python deques with `maxlen` are lists that
drop from the front once full (`pushMax`).  OI and order-book state are
included; the logger and configuration reads add nothing. -/

inductive OFDirection where
  | bullish
  | bearish
  | neutral
deriving Repr, DecidableEq

structure TradeM where
  quantity : ℚ
  is_buyer_maker : Bool
deriving Repr, DecidableEq

structure OFConfig where
  delta_threshold : ℚ
  consecutive_bars_required : ℕ
  cvd_trend_lookback : ℕ
  absorption_volume_multiplier : ℚ
  absorption_price_tolerance : ℚ
  absorption_lookback : ℕ
deriving Repr, DecidableEq

structure OFState where
  current_delta : ℚ
  cumulative_delta : ℚ
  buy_volume_current : ℚ
  sell_volume_current : ℚ
  delta_history : List ℚ
  cvd_history : List ℚ
  volume_history : List ℚ
  price_history : List ℚ
  consecutive_buy_bars : ℕ
  consecutive_sell_bars : ℕ
  cvd_trend : OFDirection
  absorption_detected : Bool
  absorption_price : Option ℚ
  absorption_volume : ℚ
  current_oi : ℚ
  previous_oi : ℚ
  current_imbalance : ℚ
deriving Repr, DecidableEq

/-- Fresh analyzer state (constructor of OrderFlowAnalyzer);
`current_imbalance` models the source field `current_imbalance_ratio`. -/
def initOFState : OFState :=
  ⟨0, 0, 0, 0, [], [], [], [], 0, 0, OFDirection.neutral, false, none, 0, 0, 0, 0⟩

/-- Append to a deque with `maxlen = n`: keep the last `n` elements. -/
def pushMax (n : ℕ) (x : ℚ) (l : List ℚ) : List ℚ :=
  let l2 := l ++ [x]
  l2.drop (l2.length - n)

/-- Model of `update_from_trades`: overwrite the current bar's buy/sell
volumes and delta from the trade list (a trade is a buy when
`is_buyer_maker` is false). -/
def update_from_trades (trades : List TradeM) (st : OFState) : OFState :=
  let buy_vol := ((trades.filter (fun t => ! t.is_buyer_maker)).map
    (fun t => t.quantity)).sum
  let sell_vol := ((trades.filter (fun t => t.is_buyer_maker)).map
    (fun t => t.quantity)).sum
  { st with buy_volume_current := buy_vol
            sell_volume_current := sell_vol
            current_delta := buy_vol - sell_vol }

/-- Model of `update_from_orderbook` on the level quantities: top-5 volume
imbalance with a zero-total guard; empty books are skipped. -/
def update_from_orderbook (bids asks : List ℚ) (st : OFState) : OFState :=
  if bids = [] ∨ asks = [] then st
  else
    let bid_volume := (bids.take 5).sum
    let ask_volume := (asks.take 5).sum
    let total_volume := bid_volume + ask_volume
    if 0 < total_volume then
      { st with current_imbalance := |ask_volume - bid_volume| / total_volume }
    else
      { st with current_imbalance := 0 }

/-- Model of `update_oi`: shift current to previous, store the new value. -/
def update_oi (new_oi : ℚ) (st : OFState) : OFState :=
  { st with previous_oi := st.current_oi, current_oi := new_oi }

/-- Model of `utils.calculate_slope`: ordinary least squares slope of the
values against their indices, 0 for fewer than two points or a zero
denominator. -/
def calculate_slope (values : List ℚ) : ℚ :=
  if values.length < 2 then 0
  else
    let n : ℚ := values.length
    let x : List ℚ := (List.range values.length).map (fun i => (i : ℚ))
    let x_mean := x.sum / n
    let y_mean := values.sum / n
    let numer := ((x.zip values).map (fun p => (p.1 - x_mean) * (p.2 - y_mean))).sum
    let denom := (x.map (fun xi => (xi - x_mean) ^ 2)).sum
    if denom = 0 then 0 else numer / denom

/-- Python slice `l[-n:]`: the last `n` elements, the whole list when
`n = 0` (since `l[-0:]` is `l[0:]`) or when `n` exceeds the length. -/
def lastSlice (n : ℕ) (l : List ℚ) : List ℚ :=
  if n = 0 then l else l.drop (l.length - n)

/-- CVD trend computed by `_update_trend`: neutral on a short history,
else the sign of the slope of the last `cvd_trend_lookback` CVD values. -/
def compute_cvd_trend (cfg : OFConfig) (cvd_history : List ℚ) : OFDirection :=
  if cvd_history.length < cfg.cvd_trend_lookback then OFDirection.neutral
  else
    let slope := calculate_slope (lastSlice cfg.cvd_trend_lookback cvd_history)
    if 0 < slope then OFDirection.bullish
    else if slope < 0 then OFDirection.bearish
    else OFDirection.neutral

/-- Model of `_update_trend` as a single field assignment. -/
def update_trend (cfg : OFConfig) (st : OFState) : OFState :=
  { st with cvd_trend := compute_cvd_trend cfg st.cvd_history }

/-- Model of `is_delta_bullish`: last finalized delta strictly above the
significance threshold (false on an empty history). -/
def is_delta_bullish (cfg : OFConfig) (delta_history : List ℚ) : Bool :=
  match delta_history.getLast? with
  | none => false
  | some d => decide (cfg.delta_threshold < d)

/-- Model of `is_delta_bearish`. -/
def is_delta_bearish (cfg : OFConfig) (delta_history : List ℚ) : Bool :=
  match delta_history.getLast? with
  | none => false
  | some d => decide (d < -cfg.delta_threshold)

/-- Consecutive buy/sell bar counters after `_update_consecutive_bars`. -/
def next_consecutive (cfg : OFConfig) (delta_history : List ℚ)
    (buy sell : ℕ) : ℕ × ℕ :=
  if is_delta_bullish cfg delta_history then (buy + 1, 0)
  else if is_delta_bearish cfg delta_history then (0, sell + 1)
  else (0, 0)

/-- Model of `_update_consecutive_bars` as field assignments. -/
def update_consecutive_bars (cfg : OFConfig) (st : OFState) : OFState :=
  { st with
      consecutive_buy_bars :=
        (next_consecutive cfg st.delta_history st.consecutive_buy_bars
          st.consecutive_sell_bars).1
      consecutive_sell_bars :=
        (next_consecutive cfg st.delta_history st.consecutive_buy_bars
          st.consecutive_sell_bars).2 }

/-- Absorption flag computed by `_check_absorption`: requires a full
lookback window, rejects when the latest bar volume is strictly below
average times multiplier (so equality passes), requires at least two
prices, and compares the absolute percent price change from the prior bar
against the tolerance.  The division by `previous_price` is unguarded in
the source (it raises on zero); here the total rational division stands in,
and the theorems that touch it carry a nonzero hypothesis. -/
def check_absorption_flag (cfg : OFConfig) (volume_history price_history : List ℚ)
    (price : ℚ) : Bool :=
  if volume_history.length < cfg.absorption_lookback then false
  else
    let avg_volume := volume_history.sum / (volume_history.length : ℚ)
    let recent_volume := volume_history.getLast?.getD 0
    if recent_volume < avg_volume * cfg.absorption_volume_multiplier then false
    else if price_history.length < 2 then false
    else
      let previous_price := price_history.getD (price_history.length - 2) 0
      let price_change_pct := |(price - previous_price) / previous_price| * 100
      decide (price_change_pct ≤ cfg.absorption_price_tolerance)

/-- Model of `_check_absorption`: sets the flag; price and volume are only
overwritten on detection. -/
def check_absorption (cfg : OFConfig) (st : OFState) (price : ℚ) : OFState :=
  let det := check_absorption_flag cfg st.volume_history st.price_history price
  { st with absorption_detected := det
            absorption_price := if det then some price else st.absorption_price
            absorption_volume := if det then st.volume_history.getLast?.getD 0
                                 else st.absorption_volume }

/-- Model of `finalize_bar`: add the bar delta to CVD, append to the
histories (delta/CVD deques have `maxlen=100`, volume/price deques
`maxlen=absorption_lookback`), update trend, consecutive counters and
absorption, then zero the per-bar accumulators. -/
def finalize_bar (cfg : OFConfig) (st : OFState) (price : ℚ) : OFState :=
  let st1 := { st with cumulative_delta := st.cumulative_delta + st.current_delta }
  let st2 := { st1 with
      delta_history := pushMax 100 st1.current_delta st1.delta_history
      cvd_history := pushMax 100 st1.cumulative_delta st1.cvd_history
      volume_history := pushMax cfg.absorption_lookback
        (st1.buy_volume_current + st1.sell_volume_current) st1.volume_history
      price_history := pushMax cfg.absorption_lookback price st1.price_history }
  let st3 := update_trend cfg st2
  let st4 := update_consecutive_bars cfg st3
  let st5 := check_absorption cfg st4 price
  { st5 with current_delta := 0, buy_volume_current := 0, sell_volume_current := 0 }

/-- Fields of the OrderFlowMetrics snapshot built by `get_metrics`. -/
structure OrderFlowMetricsR where
  delta : ℚ
  cumulative_delta : ℚ
  delta_trend : OFDirection
  buy_volume : ℚ
  sell_volume : ℚ
  total_volume : ℚ
  oi : ℚ
  oi_change : ℚ
  oi_change_percent : ℚ
  absorption_detected : Bool
  consecutive_buy_bars : ℕ
  consecutive_sell_bars : ℕ
deriving Repr, DecidableEq

/-- Model of `get_metrics`: the reported delta is the LAST FINALIZED bar
delta (`delta_history[-1]`, 0 on an empty history), while buy/sell volumes
are the current open bar's accumulators; the OI change percent is guarded
by `previous_oi > 0`. -/
def get_metrics (st : OFState) : OrderFlowMetricsR :=
  { delta := st.delta_history.getLast?.getD 0
    cumulative_delta := st.cumulative_delta
    delta_trend := st.cvd_trend
    buy_volume := st.buy_volume_current
    sell_volume := st.sell_volume_current
    total_volume := st.buy_volume_current + st.sell_volume_current
    oi := st.current_oi
    oi_change := st.current_oi - st.previous_oi
    oi_change_percent := if 0 < st.previous_oi
      then ((st.current_oi - st.previous_oi) / st.previous_oi) * 100 else 0
    absorption_detected := st.absorption_detected
    consecutive_buy_bars := st.consecutive_buy_bars
    consecutive_sell_bars := st.consecutive_sell_bars }

/-- Model of `reset`: clears CVD and the histories, counters and the
absorption flag; the per-bar accumulators, trend, OI and imbalance fields
are left untouched, as in the source. -/
def of_reset (st : OFState) : OFState :=
  { st with cumulative_delta := 0
            cvd_history := []
            delta_history := []
            volume_history := []
            price_history := []
            consecutive_buy_bars := 0
            consecutive_sell_bars := 0
            absorption_detected := false }

/-- Operations an external caller can perform on one OrderFlowAnalyzer. -/
inductive OFOp where
  | trades (ts : List TradeM)
  | orderbook (bids asks : List ℚ)
  | oi (value : ℚ)
  | bar (price : ℚ)
  | reset
deriving Repr, DecidableEq

def apply_of_op (cfg : OFConfig) (st : OFState) : OFOp → OFState
  | OFOp.trades ts => update_from_trades ts st
  | OFOp.orderbook b a => update_from_orderbook b a st
  | OFOp.oi v => update_oi v st
  | OFOp.bar p => finalize_bar cfg st p
  | OFOp.reset => of_reset st

/-- Analyzer state after a call sequence, from a fresh analyzer. -/
def run_of_ops (cfg : OFConfig) (ops : List OFOp) : OFState :=
  ops.foldl (apply_of_op cfg) initOFState

/-- Ghost-instrumented step: alongside the state, record the per-bar delta
captured at each `finalize_bar` and clear the record at each `reset`. -/
def apply_of_op_tr (cfg : OFConfig) : OFState × List ℚ → OFOp → OFState × List ℚ
  | (st, l), OFOp.bar p => (finalize_bar cfg st p, l ++ [st.current_delta])
  | (st, _), OFOp.reset => (of_reset st, [])
  | (st, l), OFOp.trades ts => (update_from_trades ts st, l)
  | (st, l), OFOp.orderbook b a => (update_from_orderbook b a st, l)
  | (st, l), OFOp.oi v => (update_oi v st, l)

/-- Instrumented run from a fresh analyzer. -/
def run_of_trace (cfg : OFConfig) (ops : List OFOp) : OFState × List ℚ :=
  ops.foldl (apply_of_op_tr cfg) (initOFState, [])

/-! ### Projection lemmas for finalize_bar -/

lemma finalize_bar_cumulative_delta (cfg : OFConfig) (st : OFState) (price : ℚ) :
    (finalize_bar cfg st price).cumulative_delta
      = st.cumulative_delta + st.current_delta := by
  simp [finalize_bar, update_trend, update_consecutive_bars, check_absorption]

lemma finalize_bar_zeroes (cfg : OFConfig) (st : OFState) (price : ℚ) :
    (finalize_bar cfg st price).current_delta = 0 ∧
    (finalize_bar cfg st price).buy_volume_current = 0 ∧
    (finalize_bar cfg st price).sell_volume_current = 0 := by
  refine ⟨rfl, rfl, rfl⟩

lemma finalize_bar_absorption_detected (cfg : OFConfig) (st : OFState) (price : ℚ) :
    (finalize_bar cfg st price).absorption_detected =
      check_absorption_flag cfg
        (pushMax cfg.absorption_lookback
          (st.buy_volume_current + st.sell_volume_current) st.volume_history)
        (pushMax cfg.absorption_lookback price st.price_history) price := by
  simp [finalize_bar, update_trend, update_consecutive_bars, check_absorption]

/-! ### C6: cumulative delta is the running sum of finalized bar deltas -/

lemma run_of_trace_inv (cfg : OFConfig) :
    ∀ (ops : List OFOp) (p : OFState × List ℚ),
      p.1.cumulative_delta = p.2.sum →
      (ops.foldl (apply_of_op_tr cfg) p).1.cumulative_delta
        = (ops.foldl (apply_of_op_tr cfg) p).2.sum := by
  intro ops
  induction ops with
  | nil => intro p h; exact h
  | cons op rest ih =>
    intro p h
    rw [List.foldl_cons]
    apply ih
    obtain ⟨st, l⟩ := p
    cases op with
    | trades ts => simpa [apply_of_op_tr, update_from_trades] using h
    | orderbook b a =>
      simp only [apply_of_op_tr, update_from_orderbook]
      split_ifs <;> simpa using h
    | oi v => simpa [apply_of_op_tr, update_oi] using h
    | bar pr =>
      simp only [apply_of_op_tr, finalize_bar_cumulative_delta, List.sum_append,
        List.sum_cons, List.sum_nil]
      simp at h
      rw [h]
      ring
    | reset => simp [apply_of_op_tr, of_reset]

/-- C6: after any call sequence from a fresh analyzer, `cumulative_delta`
equals the sum of the per-bar deltas captured at each `finalize_bar` since
the last `reset` (the instrumented trace records exactly those deltas and
is cleared at each reset), and `reset` itself puts it back to 0. -/
theorem orderflow_cvd_running_sum (cfg : OFConfig) (ops : List OFOp) :
    (run_of_trace cfg ops).1.cumulative_delta = (run_of_trace cfg ops).2.sum ∧
    ∀ st : OFState, (of_reset st).cumulative_delta = 0 := by
  constructor
  · exact run_of_trace_inv cfg ops (initOFState, []) (by simp [initOFState])
  · intro st; simp [of_reset]

/-! ### C8: snapshot delta versus buy/sell volumes -/

lemma run_of_ops_delta_inv (cfg : OFConfig) :
    ∀ (ops : List OFOp) (st : OFState),
      st.current_delta = st.buy_volume_current - st.sell_volume_current →
      (ops.foldl (apply_of_op cfg) st).current_delta
        = (ops.foldl (apply_of_op cfg) st).buy_volume_current
          - (ops.foldl (apply_of_op cfg) st).sell_volume_current := by
  intro ops
  induction ops with
  | nil => intro st h; exact h
  | cons op rest ih =>
    intro st h
    rw [List.foldl_cons]
    apply ih
    cases op with
    | trades ts => simp [apply_of_op, update_from_trades]
    | orderbook b a =>
      simp only [apply_of_op, update_from_orderbook]
      split_ifs <;> simpa using h
    | oi v => simpa [apply_of_op, update_oi] using h
    | bar pr =>
      have hz := finalize_bar_zeroes cfg st pr
      simp [apply_of_op, hz.1, hz.2.1, hz.2.2]
    | reset => simpa [apply_of_op, of_reset] using h

/-- C8 counterexample: after `update_from_trades` with a single buy of 5
(and no `finalize_bar` yet), the snapshot reports delta = 0 (empty delta
history) while buy_volume = 5 and sell_volume = 0, so
delta ≠ buy_volume − sell_volume. -/
theorem orderflow_metrics_delta_counterexample :
    (get_metrics (run_of_ops ⟨1, 2, 3, 3, 1, 2⟩
      [OFOp.trades [⟨5, false⟩]])).delta = 0 ∧
    (get_metrics (run_of_ops ⟨1, 2, 3, 3, 1, 2⟩
      [OFOp.trades [⟨5, false⟩]])).buy_volume = 5 ∧
    (get_metrics (run_of_ops ⟨1, 2, 3, 3, 1, 2⟩
      [OFOp.trades [⟨5, false⟩]])).sell_volume = 0 ∧
    (0 : ℚ) ≠ 5 - 0 := by
  refine ⟨?_, ?_, ?_, by norm_num⟩ <;>
    norm_num [get_metrics, run_of_ops, apply_of_op, update_from_trades, initOFState,
      List.filter]

/-- C8 amended: in every snapshot, buy_volume − sell_volume equals the OPEN
bar's running delta (`current_delta`), while the snapshot's `delta` field
reports the most recently FINALIZED bar's delta (`delta_history[-1]`, 0
when no bar has been finalized); the claimed identity
delta = buy_volume − sell_volume fails whenever those two differ. -/
theorem orderflow_metrics_delta_fields (cfg : OFConfig) (ops : List OFOp) :
    (get_metrics (run_of_ops cfg ops)).buy_volume
      - (get_metrics (run_of_ops cfg ops)).sell_volume
      = (run_of_ops cfg ops).current_delta ∧
    (get_metrics (run_of_ops cfg ops)).delta
      = (run_of_ops cfg ops).delta_history.getLast?.getD 0 := by
  constructor
  · exact (run_of_ops_delta_inv cfg ops initOFState (by simp [initOFState])).symm
  · rfl

/-! ### C7: the absorption trigger -/

/-- Volume window seen by `_check_absorption` inside `finalize_bar` (the
bar volume is appended before the check runs). -/
def bar_volume_window (cfg : OFConfig) (st : OFState) : List ℚ :=
  pushMax cfg.absorption_lookback
    (st.buy_volume_current + st.sell_volume_current) st.volume_history

/-- Price window seen by `_check_absorption` inside `finalize_bar`. -/
def bar_price_window (cfg : OFConfig) (st : OFState) (price : ℚ) : List ℚ :=
  pushMax cfg.absorption_lookback price st.price_history

/-- Prior bar price read by `_check_absorption` (`price_history[-2]`). -/
def prior_bar_price (cfg : OFConfig) (st : OFState) (price : ℚ) : ℚ :=
  (bar_price_window cfg st price).getD
    ((bar_price_window cfg st price).length - 2) 0

/-- C7 amended: with a full lookback window, at least two recorded prices
and a nonzero prior price, `finalize_bar` sets `absorption_detected` to
true exactly when the latest bar volume is AT LEAST (not strictly greater
than) the window average times the multiplier AND the absolute percent
price change from the prior bar is at most the tolerance. -/
theorem orderflow_absorption_iff (cfg : OFConfig) (st : OFState) (price : ℚ)
    (hfull : (bar_volume_window cfg st).length = cfg.absorption_lookback)
    (hp2 : 2 ≤ (bar_price_window cfg st price).length)
    (hprev : prior_bar_price cfg st price ≠ 0) :
    ((finalize_bar cfg st price).absorption_detected = true ↔
      ((bar_volume_window cfg st).sum / ((bar_volume_window cfg st).length : ℚ)
          * cfg.absorption_volume_multiplier
        ≤ (bar_volume_window cfg st).getLast?.getD 0 ∧
       |(price - prior_bar_price cfg st price) / prior_bar_price cfg st price| * 100
        ≤ cfg.absorption_price_tolerance)) := by
  rw [finalize_bar_absorption_detected]
  show check_absorption_flag cfg (bar_volume_window cfg st)
    (bar_price_window cfg st price) price = true ↔ _
  simp only [check_absorption_flag, prior_bar_price]
  split_ifs with h1 h2 h3
  · omega
  · simp only [Bool.false_eq_true, false_iff, not_and]
    intro hge
    exact absurd hge (not_le_of_lt h2)
  · omega
  · rw [decide_eq_true_eq]
    constructor
    · intro hpct; exact ⟨le_of_not_lt h2, hpct⟩
    · intro hb; exact hb.2

/-- C7 amended witness: one prior zero-volume bar at price 100 and a
second zero-volume bar at price 100 fill a lookback-2 window; equality of
recent volume with average times multiplier passes the check and the flag
is set. -/
theorem orderflow_absorption_iff_witness :
    (bar_volume_window ⟨1, 2, 3, 3, 1, 2⟩
      ⟨0, 0, 0, 0, [0], [0], [0], [100], 0, 0, OFDirection.neutral, false,
       none, 0, 0, 0, 0⟩).length = 2 ∧
    2 ≤ (bar_price_window ⟨1, 2, 3, 3, 1, 2⟩
      ⟨0, 0, 0, 0, [0], [0], [0], [100], 0, 0, OFDirection.neutral, false,
       none, 0, 0, 0, 0⟩ 100).length ∧
    prior_bar_price ⟨1, 2, 3, 3, 1, 2⟩
      ⟨0, 0, 0, 0, [0], [0], [0], [100], 0, 0, OFDirection.neutral, false,
       none, 0, 0, 0, 0⟩ 100 ≠ 0 ∧
    ((finalize_bar ⟨1, 2, 3, 3, 1, 2⟩
      ⟨0, 0, 0, 0, [0], [0], [0], [100], 0, 0, OFDirection.neutral, false,
       none, 0, 0, 0, 0⟩ 100).absorption_detected = true ↔
      ((bar_volume_window ⟨1, 2, 3, 3, 1, 2⟩
          ⟨0, 0, 0, 0, [0], [0], [0], [100], 0, 0, OFDirection.neutral, false,
           none, 0, 0, 0, 0⟩).sum
          / ((bar_volume_window ⟨1, 2, 3, 3, 1, 2⟩
          ⟨0, 0, 0, 0, [0], [0], [0], [100], 0, 0, OFDirection.neutral, false,
           none, 0, 0, 0, 0⟩).length : ℚ) * 3
        ≤ (bar_volume_window ⟨1, 2, 3, 3, 1, 2⟩
          ⟨0, 0, 0, 0, [0], [0], [0], [100], 0, 0, OFDirection.neutral, false,
           none, 0, 0, 0, 0⟩).getLast?.getD 0 ∧
       |((100 : ℚ) - prior_bar_price ⟨1, 2, 3, 3, 1, 2⟩
          ⟨0, 0, 0, 0, [0], [0], [0], [100], 0, 0, OFDirection.neutral, false,
           none, 0, 0, 0, 0⟩ 100) / prior_bar_price ⟨1, 2, 3, 3, 1, 2⟩
          ⟨0, 0, 0, 0, [0], [0], [0], [100], 0, 0, OFDirection.neutral, false,
           none, 0, 0, 0, 0⟩ 100| * 100 ≤ 1)) := by
  have h1 : (bar_volume_window ⟨1, 2, 3, 3, 1, 2⟩
      ⟨0, 0, 0, 0, [0], [0], [0], [100], 0, 0, OFDirection.neutral, false,
       none, 0, 0, 0, 0⟩).length = 2 := by
    norm_num [bar_volume_window, pushMax]
  have h2 : 2 ≤ (bar_price_window ⟨1, 2, 3, 3, 1, 2⟩
      ⟨0, 0, 0, 0, [0], [0], [0], [100], 0, 0, OFDirection.neutral, false,
       none, 0, 0, 0, 0⟩ 100).length := by
    norm_num [bar_price_window, pushMax]
  have h3 : prior_bar_price ⟨1, 2, 3, 3, 1, 2⟩
      ⟨0, 0, 0, 0, [0], [0], [0], [100], 0, 0, OFDirection.neutral, false,
       none, 0, 0, 0, 0⟩ 100 ≠ 0 := by
    norm_num [prior_bar_price, bar_price_window, pushMax]
  exact ⟨h1, h2, h3, orderflow_absorption_iff _ _ _ h1 h2 h3⟩

/-- C7 counterexample: two zero-volume bars at price 100 with lookback 2
and multiplier 3: the latest volume (0) is NOT strictly greater than the
window average times the multiplier (0), yet the flag is set, because the
source rejects only on `recent_volume < avg_volume * multiplier`. -/
theorem orderflow_absorption_counterexample :
    (run_of_ops ⟨1, 2, 3, 3, 1, 2⟩ [OFOp.bar 100, OFOp.bar 100]).absorption_detected
      = true ∧
    (run_of_ops ⟨1, 2, 3, 3, 1, 2⟩
      [OFOp.bar 100, OFOp.bar 100]).volume_history = [0, 0] ∧
    ¬ (((0 : ℚ) + 0) / 2 * 3 <
        (run_of_ops ⟨1, 2, 3, 3, 1, 2⟩
          [OFOp.bar 100, OFOp.bar 100]).volume_history.getLast?.getD 0) := by
  have hrun : run_of_ops ⟨1, 2, 3, 3, 1, 2⟩ [OFOp.bar 100, OFOp.bar 100] =
      ⟨0, 0, 0, 0, [0, 0], [0, 0], [0, 0], [100, 100], 0, 0,
       OFDirection.neutral, true, some 100, 0, 0, 0, 0⟩ := by
    norm_num [run_of_ops, apply_of_op, finalize_bar, update_trend, compute_cvd_trend,
      update_consecutive_bars, next_consecutive, is_delta_bullish, is_delta_bearish,
      check_absorption, check_absorption_flag, calculate_slope, lastSlice, pushMax,
      initOFState]
  rw [hrun]
  norm_num

/-! ## Division guards (C10)

Python division raises ZeroDivisionError on a zero divisor; `pydiv` models
one division step as an Option, `none` standing for the raised exception.
The three computations named by the claim are modelled here exactly as the
source writes them, with every division routed through `pydiv`; the guarded
ratio computations of the core are modelled alongside. -/

/-- Python division: `none` models the ZeroDivisionError. -/
def pydiv (a b : ℚ) : Option ℚ := if b = 0 then none else some (a / b)

/-- Model of `VWAPCalculator.is_pullback` (vwap_calculator.py 183-201):
returns False when no VWAP snapshot exists, otherwise compares the percent
distance to the tolerance; the division by the stored VWAP is unguarded in
the source. -/
def is_pullback (current_vwap : Option ℚ) (price tolerance : ℚ) : Option Bool :=
  match current_vwap with
  | none => some false
  | some v => (pydiv |price - v| v).map (fun r => decide (r * 100 ≤ tolerance))

/-- Model of `VWAPData.is_pullback_zone` (models.py 219-221): unguarded
division by the vwap, strict comparison against the fractional tolerance. -/
def is_pullback_zone_checked (vwap price tolerance : ℚ) : Option Bool :=
  (pydiv |price - vwap| vwap).map (fun r => decide (r < tolerance))

/-- Percent price change computed by `_check_absorption`
(orderflow_analyzer.py 249-250): unguarded division by the prior price. -/
def absorption_price_change_pct (price previous_price : ℚ) : Option ℚ :=
  (pydiv (price - previous_price) previous_price).map (fun r => |r| * 100)

/-- Model of `utils.is_near`: guarded, False when the reference is zero. -/
def is_near (price1 price2 tolerance_percent : ℚ) : Bool :=
  if price2 = 0 then false
  else decide (|(price1 - price2) / price2| * 100 ≤ tolerance_percent)

/-- Model of `utils.calculate_percent_change`: guarded, 0 on a zero base. -/
def calculate_percent_change (old_value new_value : ℚ) : ℚ :=
  if old_value = 0 then 0 else ((new_value - old_value) / old_value) * 100

/-- Model of `TPOProfile.poc_position`: 0.5 on a zero-width value area. -/
def poc_position (poc vah va_low : ℚ) : ℚ :=
  if vah - va_low = 0 then 1 / 2 else (poc - va_low) / (vah - va_low)

/-- C10 counterexample: the three computations the claim names are NOT
guarded: a zero reference makes each of them raise (modelled as `none`,
the division error) instead of yielding 0 or a defined no-value result. -/
theorem division_guard_counterexample :
    is_pullback (some 0) 1 5 = none ∧
    is_pullback_zone_checked 0 1 (1 / 1000) = none ∧
    absorption_price_change_pct 100 0 = none := by
  refine ⟨?_, ?_, ?_⟩ <;>
    simp [is_pullback, is_pullback_zone_checked, absorption_price_change_pct, pydiv]

/-- C10 amended: the OI-change, order-book imbalance, percent-change,
is_near and poc_position computations are guarded (a zero reference yields
0, False, or the 0.5 sentinel); but `is_pullback` (once a VWAP snapshot
exists), `is_pullback_zone` and the absorption price-change computation
divide by their reference unguarded: they are total exactly when the
reference is nonzero and raise a division error on a zero reference. -/
theorem division_guards_amended :
    (∀ newv : ℚ, calculate_percent_change 0 newv = 0) ∧
    (∀ p1 tol : ℚ, is_near p1 0 tol = false) ∧
    (∀ st : OFState, st.previous_oi = 0 → (get_metrics st).oi_change_percent = 0) ∧
    (∀ st : OFState, (update_from_orderbook [0] [0] st).current_imbalance = 0) ∧
    (∀ poc v : ℚ, poc_position poc v v = 1 / 2) ∧
    (∀ v price tol : ℚ, (is_pullback (some v) price tol).isSome ↔ v ≠ 0) ∧
    (∀ v price tol : ℚ, (is_pullback_zone_checked v price tol).isSome ↔ v ≠ 0) ∧
    (∀ price prev : ℚ, (absorption_price_change_pct price prev).isSome ↔ prev ≠ 0) := by
  refine ⟨?_, ?_, ?_, ?_, ?_, ?_, ?_, ?_⟩
  · intro newv; simp [calculate_percent_change]
  · intro p1 tol; simp [is_near]
  · intro st h; simp [get_metrics, h]
  · intro st; norm_num [update_from_orderbook]
  · intro poc v; simp [poc_position]
  · intro v price tol; by_cases hv : v = 0 <;> simp [is_pullback, pydiv, hv]
  · intro v price tol; by_cases hv : v = 0 <;> simp [is_pullback_zone_checked, pydiv, hv]
  · intro price prev; by_cases hp : prev = 0 <;> simp [absorption_price_change_pct, pydiv, hp]

/-! ## Signal engine (signal_engine.py)

Inputs to `check_signals` are the latest analyzer snapshots (each possibly
absent).  Timestamps are milliseconds.  `is_pullback_zone` is rendered with
total rational division; the engine theorems that could meet its zero-vwap
division error carry a nonzero-vwap hypothesis (see C10 for the
Option-level model of that division). -/

inductive SignalType where
  | long_entry
  | short_entry
  | long_failure
  | short_failure
deriving Repr, DecidableEq

inductive TPOEvent where
  | val_bounce
  | val_break
  | vah_rejection
  | vah_breakout
  | poc_reclaim
  | poc_breakdown
  | inside_value_area
  | outside_value_area
deriving Repr, DecidableEq

/-- Cooldown categories: long entry, short entry and the shared failure
timer used by both failure signal types. -/
inductive SigCat where
  | long
  | short
  | failure
deriving Repr, DecidableEq

/-- Fields of VWAPData read by the signal engine. -/
structure VWAPIn where
  vwap : ℚ
  slope : ℚ
  upper_1std : ℚ
  lower_1std : ℚ
deriving Repr, DecidableEq

/-- Fields of OrderFlowMetrics read by the signal engine. -/
structure OFIn where
  delta : ℚ
  delta_trend : OFDirection
  oi_change_percent : ℚ
  consecutive_buy_bars : ℕ
  consecutive_sell_bars : ℕ
  absorption_detected : Bool
deriving Repr, DecidableEq

/-- Per-direction entry configuration (`long.*` / `short.*`):
`require_all_orderflow`, `min_confidence` and the vwap pullback/rejection
tolerance. -/
structure EntryCfg where
  require_all_orderflow : Bool
  min_confidence : ℚ
  vwap_tolerance : ℚ
deriving Repr, DecidableEq

structure FailureCfg where
  min_confidence : ℚ
deriving Repr, DecidableEq

structure SigConfig where
  long : EntryCfg
  short : EntryCfg
  failure : FailureCfg
  cooldown_seconds : ℚ
deriving Repr, DecidableEq

/-- Mutable per-symbol engine state: the three cooldown timers and the
recent high/low tracking. -/
structure EngState where
  last_long_signal_time : Option ℚ
  last_short_signal_time : Option ℚ
  last_failure_signal_time : Option ℚ
  recent_high : Option ℚ
  recent_low : Option ℚ
deriving Repr, DecidableEq

/-- Fresh engine state (constructor of SignalEngine). -/
def initEngState : EngState := ⟨none, none, none, none, none⟩

/-- Arguments of one `check_signals` call. -/
structure CheckIn where
  current_time : ℚ
  current_price : ℚ
  tpo_event : Option TPOEvent
  tpo_data : Option TPOProfileR
  vwap_data : Option VWAPIn
  orderflow_data : Option OFIn
deriving Repr, DecidableEq

/-- Fields of the emitted SignalEvent that the claims mention. -/
structure SigEvent where
  timestamp : ℚ
  signal_type : SignalType
  price : ℚ
  confidence : ℚ
deriving Repr, DecidableEq

/-- Model of `_is_in_cooldown`: true when less than `cooldown_seconds` has
elapsed (timestamps are in ms, hence the division by 1000). -/
def is_in_cooldown (cooldown_seconds : ℚ) (last_signal_time : Option ℚ)
    (current_time : ℚ) : Bool :=
  match last_signal_time with
  | none => false
  | some t => decide ((current_time - t) / 1000 < cooldown_seconds)

/-- Total-division rendering of `VWAPData.is_pullback_zone` as used inside
the engine (the Option-level model is `is_pullback_zone_checked`). -/
def is_pullback_zone_total (vwap price tolerance : ℚ) : Bool :=
  decide (|price - vwap| / vwap < tolerance)

/-- Number of satisfied long order-flow conditions (delta positive, CVD
trend bullish, OI rising, two consecutive buy bars). -/
def long_of_met (ofm : OFIn) : ℕ :=
  (if 0 < ofm.delta then 1 else 0) +
  (if ofm.delta_trend = OFDirection.bullish then 1 else 0) +
  (if 0 < ofm.oi_change_percent then 1 else 0) +
  (if 2 ≤ ofm.consecutive_buy_bars then 1 else 0)

/-- Long order-flow confidence contribution (0.10/0.10/0.05/0.10). -/
def long_of_score (ofm : OFIn) : ℚ :=
  (if 0 < ofm.delta then 10 / 100 else 0) +
  (if ofm.delta_trend = OFDirection.bullish then 10 / 100 else 0) +
  (if 0 < ofm.oi_change_percent then 5 / 100 else 0) +
  (if 2 ≤ ofm.consecutive_buy_bars then 10 / 100 else 0)

/-- Long TPO + VWAP confidence: 0.25 for the TPO event plus 0.15 for price
at or above VWAP, 0.25 for the pullback zone, 0.10 for a positive slope
(the source accumulates these sequentially; the sum is identical). -/
def long_base_confidence (cfg : SigConfig) (i : CheckIn) (vw : VWAPIn) : ℚ :=
  0 + 25 / 100 +
  (if vw.vwap ≤ i.current_price then 15 / 100 else 0) +
  (if is_pullback_zone_total vw.vwap i.current_price cfg.long.vwap_tolerance
    then 25 / 100 else 0) +
  (if 0 < vw.slope then 10 / 100 else 0)

/-- Model of `_check_long_entry` up to the emitted confidence: cooldown
gate, data presence, mandatory TPO event, mandatory VWAP alignment
(above or in the pullback zone), the all-4 or 3-of-4 order-flow gate and
the minimum-confidence gate. -/
def long_entry_score (cfg : SigConfig) (last_long : Option ℚ) (i : CheckIn) :
    Option ℚ :=
  if is_in_cooldown cfg.cooldown_seconds last_long i.current_time then none
  else
    match i.tpo_data, i.vwap_data, i.orderflow_data with
    | some _, some vw, some ofm =>
      if i.tpo_event = some TPOEvent.val_bounce ∨
         i.tpo_event = some TPOEvent.poc_reclaim ∨
         i.tpo_event = some TPOEvent.vah_breakout then
        if vw.vwap ≤ i.current_price ∨
           is_pullback_zone_total vw.vwap i.current_price cfg.long.vwap_tolerance
             = true then
          if cfg.long.require_all_orderflow then
            if long_of_met ofm < 4 then none
            else if long_base_confidence cfg i vw + long_of_score ofm
                < cfg.long.min_confidence then none
            else some (long_base_confidence cfg i vw + long_of_score ofm)
          else
            if long_of_met ofm < 3 then none
            else if long_base_confidence cfg i vw + long_of_score ofm
                < cfg.long.min_confidence then none
            else some (long_base_confidence cfg i vw + long_of_score ofm)
        else none
      else none
    | _, _, _ => none

/-- Number of satisfied short order-flow conditions. -/
def short_of_met (ofm : OFIn) : ℕ :=
  (if ofm.delta < 0 then 1 else 0) +
  (if ofm.delta_trend = OFDirection.bearish then 1 else 0) +
  (if 0 < ofm.oi_change_percent then 1 else 0) +
  (if 2 ≤ ofm.consecutive_sell_bars then 1 else 0)

/-- Short order-flow confidence contribution. -/
def short_of_score (ofm : OFIn) : ℚ :=
  (if ofm.delta < 0 then 10 / 100 else 0) +
  (if ofm.delta_trend = OFDirection.bearish then 10 / 100 else 0) +
  (if 0 < ofm.oi_change_percent then 5 / 100 else 0) +
  (if 2 ≤ ofm.consecutive_sell_bars then 10 / 100 else 0)

/-- Short TPO + VWAP confidence; the 0.25 rejection bonus additionally
requires a negative delta, as in the source. -/
def short_base_confidence (cfg : SigConfig) (i : CheckIn) (vw : VWAPIn)
    (ofm : OFIn) : ℚ :=
  0 + 25 / 100 +
  (if i.current_price ≤ vw.vwap then 15 / 100 else 0) +
  (if is_pullback_zone_total vw.vwap i.current_price cfg.short.vwap_tolerance
      = true ∧ ofm.delta < 0 then 25 / 100 else 0) +
  (if vw.slope < 0 then 10 / 100 else 0)

/-- Model of `_check_short_entry` up to the emitted confidence. -/
def short_entry_score (cfg : SigConfig) (last_short : Option ℚ) (i : CheckIn) :
    Option ℚ :=
  if is_in_cooldown cfg.cooldown_seconds last_short i.current_time then none
  else
    match i.tpo_data, i.vwap_data, i.orderflow_data with
    | some _, some vw, some ofm =>
      if i.tpo_event = some TPOEvent.vah_rejection ∨
         i.tpo_event = some TPOEvent.poc_breakdown ∨
         i.tpo_event = some TPOEvent.val_break then
        if i.current_price ≤ vw.vwap ∨
           (is_pullback_zone_total vw.vwap i.current_price cfg.short.vwap_tolerance
             = true ∧ ofm.delta < 0) then
          if cfg.short.require_all_orderflow then
            if short_of_met ofm < 4 then none
            else if short_base_confidence cfg i vw ofm + short_of_score ofm
                < cfg.short.min_confidence then none
            else some (short_base_confidence cfg i vw ofm + short_of_score ofm)
          else
            if short_of_met ofm < 3 then none
            else if short_base_confidence cfg i vw ofm + short_of_score ofm
                < cfg.short.min_confidence then none
            else some (short_base_confidence cfg i vw ofm + short_of_score ofm)
        else none
      else none
    | _, _, _ => none

/-- Confidence accumulated by `_check_upside_failure` once price is near a
key high and at the recent high: 0.2 base plus delta flip 0.3, CVD
divergence 0.2, absorption 0.3. -/
def upside_failure_confidence (ofm : OFIn) : ℚ :=
  2 / 10 +
  (if ofm.delta < 0 then 3 / 10 else 0) +
  (if ofm.delta_trend ≠ OFDirection.bullish then 2 / 10 else 0) +
  (if ofm.absorption_detected then 3 / 10 else 0)

/-- Model of `_check_upside_failure`: 0 unless price is near VAH or the
upper band, the recent high is truthy (nonzero) and price is at or above
99.8 percent of it, and the accumulated confidence meets the minimum. -/
def upside_failure_score (cfg : SigConfig) (recent_high : Option ℚ)
    (price : ℚ) (tpo : TPOProfileR) (vw : VWAPIn) (ofm : OFIn) : ℚ :=
  if is_near price tpo.vah (2 / 10) = true ∨
     is_near price vw.upper_1std (2 / 10) = true then
    match recent_high with
    | some h =>
      if h ≠ 0 ∧ h * (998 / 1000) ≤ price then
        if upside_failure_confidence ofm < cfg.failure.min_confidence then 0
        else upside_failure_confidence ofm
      else 0
    | none => 0
  else 0

/-- Confidence accumulated by `_check_downside_failure`. -/
def downside_failure_confidence (ofm : OFIn) : ℚ :=
  2 / 10 +
  (if 0 < ofm.delta then 3 / 10 else 0) +
  (if ofm.delta_trend ≠ OFDirection.bearish then 2 / 10 else 0) +
  (if ofm.absorption_detected then 3 / 10 else 0)

/-- Model of `_check_downside_failure` (mirror: VAL / lower band, price at
or below 100.2 percent of the recent low). -/
def downside_failure_score (cfg : SigConfig) (recent_low : Option ℚ)
    (price : ℚ) (tpo : TPOProfileR) (vw : VWAPIn) (ofm : OFIn) : ℚ :=
  if is_near price tpo.val (2 / 10) = true ∨
     is_near price vw.lower_1std (2 / 10) = true then
    match recent_low with
    | some l =>
      if l ≠ 0 ∧ price ≤ l * (1002 / 1000) then
        if downside_failure_confidence ofm < cfg.failure.min_confidence then 0
        else downside_failure_confidence ofm
      else 0
    | none => 0
  else 0

/-- Model of `_check_failure_patterns` up to the emitted type and
confidence: cooldown gate, data presence, upside check first (a nonzero
score is Python-truthy and becomes a SHORT_FAILURE), then the downside
check (LONG_FAILURE). -/
def failure_score (cfg : SigConfig) (last_failure recent_high recent_low : Option ℚ)
    (i : CheckIn) : Option (SignalType × ℚ) :=
  if is_in_cooldown cfg.cooldown_seconds last_failure i.current_time then none
  else
    match i.tpo_data, i.vwap_data, i.orderflow_data with
    | some tpo, some vw, some ofm =>
      if upside_failure_score cfg recent_high i.current_price tpo vw ofm ≠ 0 then
        some (SignalType.short_failure,
          upside_failure_score cfg recent_high i.current_price tpo vw ofm)
      else if downside_failure_score cfg recent_low i.current_price tpo vw ofm ≠ 0 then
        some (SignalType.long_failure,
          downside_failure_score cfg recent_low i.current_price tpo vw ofm)
      else none
    | _, _, _ => none

/-- Model of the high half of `_update_price_tracking` (Python truthiness:
update when unset or on a strictly higher price). -/
def track_high (recent : Option ℚ) (price : ℚ) : Option ℚ :=
  match recent with
  | none => some price
  | some h => if h < price then some price else some h

/-- Model of the low half of `_update_price_tracking`. -/
def track_low (recent : Option ℚ) (price : ℚ) : Option ℚ :=
  match recent with
  | none => some price
  | some l => if price < l then some price else some l

/-- Model of `check_signals`: update the recent high/low tracking, then try
failure patterns, long entry, short entry in that order; on emission the
event carries the current time and price and the confidence clamped by
`min(confidence, 1.0)`, and the emitting category's cooldown timer is set
to the current time. -/
def check_signals (cfg : SigConfig) (s : EngState) (i : CheckIn) :
    Option SigEvent × EngState :=
  let s1 : EngState := { s with recent_high := track_high s.recent_high i.current_price,
                                recent_low := track_low s.recent_low i.current_price }
  match failure_score cfg s1.last_failure_signal_time s1.recent_high s1.recent_low i with
  | some tc =>
    (some ⟨i.current_time, tc.1, i.current_price, min tc.2 1⟩,
     { s1 with last_failure_signal_time := some i.current_time })
  | none =>
    match long_entry_score cfg s1.last_long_signal_time i with
    | some c =>
      (some ⟨i.current_time, SignalType.long_entry, i.current_price, min c 1⟩,
       { s1 with last_long_signal_time := some i.current_time })
    | none =>
      match short_entry_score cfg s1.last_short_signal_time i with
      | some c =>
        (some ⟨i.current_time, SignalType.short_entry, i.current_price, min c 1⟩,
         { s1 with last_short_signal_time := some i.current_time })
      | none => (none, s1)

/-- Cooldown category of an emitted signal type (both failure types share
the failure timer). -/
def signal_category : SignalType → SigCat
  | SignalType.long_entry => SigCat.long
  | SignalType.short_entry => SigCat.short
  | SignalType.long_failure => SigCat.failure
  | SignalType.short_failure => SigCat.failure

/-- Cooldown timer of one category. -/
def last_signal_time (s : EngState) : SigCat → Option ℚ
  | SigCat.long => s.last_long_signal_time
  | SigCat.short => s.last_short_signal_time
  | SigCat.failure => s.last_failure_signal_time

/-- Timestamps and types of the signals emitted along a call sequence. -/
def emit_trace (cfg : SigConfig) : EngState → List CheckIn → List (ℚ × SignalType)
  | _, [] => []
  | s, i :: ops =>
    (match (check_signals cfg s i).1 with
     | some e => [(e.timestamp, e.signal_type)]
     | none => []) ++ emit_trace cfg (check_signals cfg s i).2 ops

/-! ### Score lemmas -/

lemma long_of_score_nonneg (ofm : OFIn) : 0 ≤ long_of_score ofm := by
  unfold long_of_score; split_ifs <;> norm_num

lemma long_base_confidence_nonneg (cfg : SigConfig) (i : CheckIn) (vw : VWAPIn) :
    0 ≤ long_base_confidence cfg i vw := by
  unfold long_base_confidence; split_ifs <;> norm_num

lemma short_of_score_nonneg (ofm : OFIn) : 0 ≤ short_of_score ofm := by
  unfold short_of_score; split_ifs <;> norm_num

lemma short_base_confidence_nonneg (cfg : SigConfig) (i : CheckIn) (vw : VWAPIn)
    (ofm : OFIn) : 0 ≤ short_base_confidence cfg i vw ofm := by
  unfold short_base_confidence; split_ifs <;> norm_num

lemma upside_failure_confidence_nonneg (ofm : OFIn) :
    0 ≤ upside_failure_confidence ofm := by
  unfold upside_failure_confidence; split_ifs <;> norm_num

lemma downside_failure_confidence_nonneg (ofm : OFIn) :
    0 ≤ downside_failure_confidence ofm := by
  unfold downside_failure_confidence; split_ifs <;> norm_num

lemma upside_failure_score_nonneg (cfg : SigConfig) (rh : Option ℚ) (price : ℚ)
    (tpo : TPOProfileR) (vw : VWAPIn) (ofm : OFIn) :
    0 ≤ upside_failure_score cfg rh price tpo vw ofm := by
  unfold upside_failure_score
  split
  · split
    · split
      · split
        · exact le_refl _
        · exact upside_failure_confidence_nonneg ofm
      · exact le_refl _
    · exact le_refl _
  · exact le_refl _

lemma downside_failure_score_nonneg (cfg : SigConfig) (rl : Option ℚ) (price : ℚ)
    (tpo : TPOProfileR) (vw : VWAPIn) (ofm : OFIn) :
    0 ≤ downside_failure_score cfg rl price tpo vw ofm := by
  unfold downside_failure_score
  split
  · split
    · split
      · split
        · exact le_refl _
        · exact downside_failure_confidence_nonneg ofm
      · exact le_refl _
    · exact le_refl _
  · exact le_refl _

lemma long_entry_score_some (cfg : SigConfig) (last : Option ℚ) (i : CheckIn)
    (c : ℚ) (h : long_entry_score cfg last i = some c) :
    0 ≤ c ∧ is_in_cooldown cfg.cooldown_seconds last i.current_time = false := by
  unfold long_entry_score at h
  split at h
  · exact Option.noConfusion h
  · rename_i hgate
    refine ⟨?_, by simpa using hgate⟩
    split at h
    · split at h
      · split at h
        · split at h
          · split at h
            · exact Option.noConfusion h
            · split at h
              · exact Option.noConfusion h
              · have := Option.some.inj h
                rw [← this]
                exact add_nonneg (long_base_confidence_nonneg _ _ _) (long_of_score_nonneg _)
          · split at h
            · exact Option.noConfusion h
            · split at h
              · exact Option.noConfusion h
              · have := Option.some.inj h
                rw [← this]
                exact add_nonneg (long_base_confidence_nonneg _ _ _) (long_of_score_nonneg _)
        · exact Option.noConfusion h
      · exact Option.noConfusion h
    · exact Option.noConfusion h

lemma short_entry_score_some (cfg : SigConfig) (last : Option ℚ) (i : CheckIn)
    (c : ℚ) (h : short_entry_score cfg last i = some c) :
    0 ≤ c ∧ is_in_cooldown cfg.cooldown_seconds last i.current_time = false := by
  unfold short_entry_score at h
  split at h
  · exact Option.noConfusion h
  · rename_i hgate
    refine ⟨?_, by simpa using hgate⟩
    split at h
    · split at h
      · split at h
        · split at h
          · split at h
            · exact Option.noConfusion h
            · split at h
              · exact Option.noConfusion h
              · have := Option.some.inj h
                rw [← this]
                exact add_nonneg (short_base_confidence_nonneg _ _ _ _) (short_of_score_nonneg _)
          · split at h
            · exact Option.noConfusion h
            · split at h
              · exact Option.noConfusion h
              · have := Option.some.inj h
                rw [← this]
                exact add_nonneg (short_base_confidence_nonneg _ _ _ _) (short_of_score_nonneg _)
        · exact Option.noConfusion h
      · exact Option.noConfusion h
    · exact Option.noConfusion h

lemma failure_score_some (cfg : SigConfig) (lf rh rl : Option ℚ) (i : CheckIn)
    (tc : SignalType × ℚ) (h : failure_score cfg lf rh rl i = some tc) :
    (tc.1 = SignalType.short_failure ∨ tc.1 = SignalType.long_failure) ∧
    0 ≤ tc.2 ∧
    is_in_cooldown cfg.cooldown_seconds lf i.current_time = false := by
  unfold failure_score at h
  split at h
  · exact Option.noConfusion h
  · rename_i hgate
    refine ⟨?_, ?_, by simpa using hgate⟩ <;>
    · split at h
      · split at h
        · have := Option.some.inj h
          rw [← this]
          first
            | exact Or.inl rfl
            | exact upside_failure_score_nonneg cfg rh i.current_price _ _ _
        · split at h
          · have := Option.some.inj h
            rw [← this]
            first
              | exact Or.inr rfl
              | exact downside_failure_score_nonneg cfg rl i.current_price _ _ _
          · exact Option.noConfusion h
      · exact Option.noConfusion h

/-- C3: every SignalEvent emitted by `check_signals` has confidence in
[0, 1]: each rule accumulates only nonnegative weights and the emission
clamps with `min(confidence, 1.0)`.  The hypothesis on the VWAP input
keeps the statement inside the domain where the source does not raise in
`is_pullback_zone`. -/
theorem signal_confidence_in_unit_interval (cfg : SigConfig) (s : EngState)
    (i : CheckIn) (e : SigEvent)
    (hvw : ∀ v, i.vwap_data = some v → v.vwap ≠ 0)
    (h : (check_signals cfg s i).1 = some e) :
    0 ≤ e.confidence ∧ e.confidence ≤ 1 := by
  unfold check_signals at h
  dsimp only at h
  split at h
  · rename_i tc heq
    have hfs := failure_score_some _ _ _ _ _ _ heq
    have he := Option.some.inj h
    rw [← he]
    exact ⟨le_min hfs.2.1 zero_le_one, min_le_right _ _⟩
  · split at h
    · rename_i c0 heq
      have hls := long_entry_score_some _ _ _ _ heq
      have he := Option.some.inj h
      rw [← he]
      exact ⟨le_min hls.1 zero_le_one, min_le_right _ _⟩
    · split at h
      · rename_i c0 heq
        have hss := short_entry_score_some _ _ _ _ heq
        have he := Option.some.inj h
        rw [← he]
        exact ⟨le_min hss.1 zero_le_one, min_le_right _ _⟩
      · exact Option.noConfusion h

lemma check_signals_state_facts (cfg : SigConfig) (s : EngState) (i : CheckIn) :
    ((check_signals cfg s i).1 = none →
      ∀ c, last_signal_time (check_signals cfg s i).2 c = last_signal_time s c) ∧
    (∀ e, (check_signals cfg s i).1 = some e →
      e.timestamp = i.current_time ∧
      last_signal_time (check_signals cfg s i).2 (signal_category e.signal_type)
        = some i.current_time ∧
      (∀ c, c ≠ signal_category e.signal_type →
        last_signal_time (check_signals cfg s i).2 c = last_signal_time s c) ∧
      is_in_cooldown cfg.cooldown_seconds
        (last_signal_time s (signal_category e.signal_type)) i.current_time
        = false) := by
  unfold check_signals
  dsimp only
  split
  · rename_i tc heq
    have hfs := failure_score_some _ _ _ _ _ _ heq
    have hcat : signal_category tc.1 = SigCat.failure := by
      rcases hfs.1 with h1 | h1 <;> rw [h1] <;> rfl
    constructor
    · intro hn; exact Option.noConfusion hn
    · intro e he
      have hee := (Option.some.inj he).symm
      subst hee
      refine ⟨rfl, ?_, ?_, ?_⟩
      · show last_signal_time _ (signal_category tc.1) = _
        rw [hcat]; rfl
      · intro c hc
        show last_signal_time _ c = last_signal_time s c
        rw [hcat] at hc
        cases c with
        | long => rfl
        | short => rfl
        | failure => exact absurd rfl hc
      · show is_in_cooldown _ (last_signal_time s (signal_category tc.1)) _ = false
        rw [hcat]
        exact hfs.2.2
  · rename_i hfnone
    split
    · rename_i c0 heq
      have hls := long_entry_score_some _ _ _ _ heq
      constructor
      · intro hn; exact Option.noConfusion hn
      · intro e he
        have hee := (Option.some.inj he).symm
        subst hee
        refine ⟨rfl, rfl, ?_, ?_⟩
        · intro c hc
          cases c with
          | long => exact absurd rfl hc
          | short => rfl
          | failure => rfl
        · exact hls.2
    · rename_i hlnone
      split
      · rename_i c0 heq
        have hss := short_entry_score_some _ _ _ _ heq
        constructor
        · intro hn; exact Option.noConfusion hn
        · intro e he
          have hee := (Option.some.inj he).symm
          subst hee
          refine ⟨rfl, rfl, ?_, ?_⟩
          · intro c hc
            cases c with
            | long => rfl
            | short => exact absurd rfl hc
            | failure => rfl
          · exact hss.2
      · constructor
        · intro _ c
          cases c with
          | long => rfl
          | short => rfl
          | failure => rfl
        · intro e he
          exact Option.noConfusion he

lemma not_in_cooldown_gap {cd t now : ℚ}
    (h : is_in_cooldown cd (some t) now = false) : t + 1000 * cd ≤ now := by
  simp only [is_in_cooldown, decide_eq_false_iff_not, not_lt] at h
  have h2 := (le_div_iff (by norm_num : (0 : ℚ) < 1000)).mp h
  linarith

lemma emit_trace_sep (cfg : SigConfig) (hcd : 0 ≤ cfg.cooldown_seconds) :
    ∀ (ops : List CheckIn) (s : EngState),
      (∀ c t, last_signal_time s c = some t →
        ∀ e ∈ emit_trace cfg s ops, signal_category e.2 = c →
          t + 1000 * cfg.cooldown_seconds ≤ e.1) ∧
      (emit_trace cfg s ops).Pairwise
        (fun a b => signal_category a.2 = signal_category b.2 →
          a.1 + 1000 * cfg.cooldown_seconds ≤ b.1) := by
  intro ops
  induction ops with
  | nil =>
    intro s
    exact ⟨by intro c t _ e he; simp [emit_trace] at he, by simp [emit_trace]⟩
  | cons i ops ih =>
    intro s
    have hf := check_signals_state_facts cfg s i
    have hrec := ih (check_signals cfg s i).2
    cases hr : (check_signals cfg s i).1 with
    | none =>
      have hkeep := hf.1 hr
      have htr : emit_trace cfg s (i :: ops)
          = emit_trace cfg (check_signals cfg s i).2 ops := by
        rw [emit_trace, hr]
        simp
      rw [htr]
      constructor
      · intro c t hlast e he hc
        exact hrec.1 c t (by rw [hkeep c]; exact hlast) e he hc
      · exact hrec.2
    | some e0 =>
      obtain ⟨hts, hset, hkeep, hcool⟩ := hf.2 e0 hr
      have htr : emit_trace cfg s (i :: ops)
          = (e0.timestamp, e0.signal_type)
            :: emit_trace cfg (check_signals cfg s i).2 ops := by
        rw [emit_trace, hr]
        simp
      rw [htr]
      constructor
      · intro c t hlast e he hc
        rcases List.mem_cons.mp he with rfl | he2
        · have hc2 : signal_category e0.signal_type = c := hc
          rw [← hc2] at hlast
          rw [hlast] at hcool
          have := not_in_cooldown_gap hcool
          rw [hts]
          exact this
        · by_cases hceq : c = signal_category e0.signal_type
          · have h1 := hrec.1 c i.current_time (by rw [hceq]; exact hset) e he2 hc
            rw [hceq] at hlast
            rw [hlast] at hcool
            have h2 := not_in_cooldown_gap hcool
            linarith
          · have hk := hkeep c hceq
            exact hrec.1 c t (by rw [hk]; exact hlast) e he2 hc
      · refine List.Pairwise.cons ?_ hrec.2
        intro b hb hcat
        have h1 := hrec.1 (signal_category e0.signal_type) i.current_time hset b hb
          hcat.symm
        rw [hts]
        exact h1

/-- C4: along any call sequence from a fresh engine, any two emitted
signals of the same type (indeed of the same cooldown category) are at
least `cooldown_seconds` apart; and a check made while a category's own
timer is still inside the cooldown window emits no signal of that
category — each category is gated only by its own timer. -/
theorem signal_cooldown_separation (cfg : SigConfig) (ops : List CheckIn)
    (s : EngState) (i : CheckIn) (c : SigCat) (t : ℚ)
    (hcd : 0 ≤ cfg.cooldown_seconds)
    (hv : ∀ j ∈ ops, ∀ v, CheckIn.vwap_data j = some v → v.vwap ≠ 0)
    (hlast : last_signal_time s c = some t)
    (hcool : (i.current_time - t) / 1000 < cfg.cooldown_seconds) :
    (emit_trace cfg initEngState ops).Pairwise
      (fun a b => a.2 = b.2 → cfg.cooldown_seconds ≤ (b.1 - a.1) / 1000) ∧
    ∀ e, (check_signals cfg s i).1 = some e → signal_category e.signal_type ≠ c := by
  constructor
  · have h := (emit_trace_sep cfg hcd ops initEngState).2
    refine h.imp ?_
    intro a b hab htype
    have h2 := hab (by rw [htype])
    rw [le_div_iff (by norm_num : (0 : ℚ) < 1000)]
    linarith
  · intro e he hcat
    obtain ⟨hts, _, _, hc⟩ := (check_signals_state_facts cfg s i).2 e he
    rw [hcat, hlast] at hc
    simp only [is_in_cooldown, decide_eq_false_iff_not, not_lt] at hc
    linarith

/-- C3 witness: a VAH breakout with price above a rising VWAP and all four
long order-flow conditions emits a LONG_ENTRY with confidence 0.85. -/
theorem signal_confidence_in_unit_interval_witness :
    (∀ v : VWAPIn,
      (⟨0, 100, some TPOEvent.vah_breakout, some ⟨150, 200, 50, 0, 0⟩,
        some ⟨50, 1, 51, 49⟩,
        some ⟨1, OFDirection.bullish, 1, 2, 0, false⟩⟩ : CheckIn).vwap_data = some v →
      v.vwap ≠ 0) ∧
    (check_signals ⟨⟨false, 1 / 2, 1 / 1000⟩, ⟨false, 1 / 2, 1 / 1000⟩, ⟨1 / 2⟩, 10⟩
      initEngState
      ⟨0, 100, some TPOEvent.vah_breakout, some ⟨150, 200, 50, 0, 0⟩,
        some ⟨50, 1, 51, 49⟩,
        some ⟨1, OFDirection.bullish, 1, 2, 0, false⟩⟩).1 =
      some ⟨0, SignalType.long_entry, 100, 17 / 20⟩ ∧
    (0 : ℚ) ≤ (17 : ℚ) / 20 ∧ (17 : ℚ) / 20 ≤ 1 := by
  have hvw : ∀ v : VWAPIn,
      (⟨0, 100, some TPOEvent.vah_breakout, some ⟨150, 200, 50, 0, 0⟩,
        some ⟨50, 1, 51, 49⟩,
        some ⟨1, OFDirection.bullish, 1, 2, 0, false⟩⟩ : CheckIn).vwap_data = some v →
      v.vwap ≠ 0 := by
    intro v hv
    rw [← Option.some.inj hv]
    norm_num
  have h : (check_signals ⟨⟨false, 1 / 2, 1 / 1000⟩, ⟨false, 1 / 2, 1 / 1000⟩, ⟨1 / 2⟩, 10⟩
      initEngState
      ⟨0, 100, some TPOEvent.vah_breakout, some ⟨150, 200, 50, 0, 0⟩,
        some ⟨50, 1, 51, 49⟩,
        some ⟨1, OFDirection.bullish, 1, 2, 0, false⟩⟩).1 =
      some ⟨0, SignalType.long_entry, 100, 17 / 20⟩ := by
    norm_num [check_signals, track_high, track_low, failure_score, upside_failure_score,
      downside_failure_score, upside_failure_confidence, downside_failure_confidence,
      is_near, long_entry_score, long_of_met, long_of_score, long_base_confidence,
      is_pullback_zone_total, is_in_cooldown, initEngState, min_def,
      abs_of_pos, abs_of_nonneg, abs_of_nonpos]
  have h2 := signal_confidence_in_unit_interval _ _ _ _ hvw h
  exact ⟨hvw, h, h2.1, h2.2⟩

/-- C4 witness: with a long signal recorded at time 0 and cooldown 10 s, a
check at 5 ms (0.005 s elapsed) cannot emit a long-category signal; the
trace of an empty call list is trivially separated. -/
theorem signal_cooldown_separation_witness :
    (0 : ℚ) ≤ 10 ∧
    (∀ j ∈ ([] : List CheckIn), ∀ v : VWAPIn,
      CheckIn.vwap_data j = some v → v.vwap ≠ 0) ∧
    last_signal_time ⟨some 0, none, none, none, none⟩ SigCat.long = some 0 ∧
    (((5 : ℚ) - 0) / 1000 < 10) ∧
    ((emit_trace ⟨⟨false, 1 / 2, 1 / 1000⟩, ⟨false, 1 / 2, 1 / 1000⟩, ⟨1 / 2⟩, 10⟩
        initEngState []).Pairwise
      (fun a b => a.2 = b.2 → (10 : ℚ) ≤ (b.1 - a.1) / 1000) ∧
     ∀ e, (check_signals ⟨⟨false, 1 / 2, 1 / 1000⟩, ⟨false, 1 / 2, 1 / 1000⟩, ⟨1 / 2⟩, 10⟩
        ⟨some 0, none, none, none, none⟩
        ⟨5, 100, none, none, none, none⟩).1 = some e →
        signal_category e.signal_type ≠ SigCat.long) := by
  have hv : ∀ j ∈ ([] : List CheckIn), ∀ v : VWAPIn,
      CheckIn.vwap_data j = some v → v.vwap ≠ 0 := by
    intro j hj
    exact absurd hj (List.not_mem_nil j)
  exact ⟨by norm_num, hv, rfl, by norm_num,
    signal_cooldown_separation ⟨⟨false, 1 / 2, 1 / 1000⟩, ⟨false, 1 / 2, 1 / 1000⟩,
      ⟨1 / 2⟩, 10⟩ [] ⟨some 0, none, none, none, none⟩
      ⟨5, 100, none, none, none, none⟩ SigCat.long 0
      (by norm_num) hv rfl (by norm_num)⟩
